import Mathlib

/-!
# GM8Emulator core semantics: a shallow embedding

This file embeds the core simulation semantics of the GM8Emulator runner
(`gm8emulator/src/game.rs` and the decoder's `src/asset/sprite.rs`) in Lean and
proves properties of the embedded definitions.

Modelling conventions:
* Machine integers are modelled as `Int` / `Nat` with explicit wrapping
  (`% 2^32`, `% 2^64`) at the points where the Rust code performs an `as` cast.
* The runtime's `Real` type (a wrapper around a 64-bit float with GM8's
  banker's rounding) is modelled as `ℚ`.  The claims proved here depend only on
  ordered-field reasoning and on the integral values of `floor`/`round`, never
  on binary floating-point rounding, so the substitution is sound for them.
  Division by zero yields `0` in `ℚ` (the float would give an infinity); no
  claim below distinguishes the two, because every code path that divides
  feeds the result into a mask lookup that degrades to `false` either way.
* Code of the repository that is outside the visible sources (the `Object`,
  `Collider` and `Timeline` asset records, `instance.rs`, `input.rs`,
  `replay.rs`, `util.rs`, `math.rs`, `byteio.rs`, the GML interpreter and the
  per-event runners) is either taken as an abstract parameter of the embedding
  or modelled from the specification; each such definition carries a comment
  saying so.
* Rust loops with early `return true` over pure bodies are modelled with
  `List.any`; stateful worklist loops are modelled with an explicit fuel
  parameter that is instantiated with a provably sufficient bound.
-/

namespace GM8

/-- Interpret a `Nat` (a `u32` bit pattern, i.e. a value `< 2^32`) as the `i32`
with the same bit pattern, as Rust's `as i32` cast does. -/
def i32OfU32 (n : Nat) : Int :=
  if (n % 2 ^ 32) < 2 ^ 31 then ((n % 2 ^ 32 : Nat) : Int)
  else ((n % 2 ^ 32 : Nat) : Int) - 2 ^ 32

/-- Interpret an `Int` (an `i32` value) as the `u32` with the same bit pattern,
as Rust's `as u32` cast does (two's complement). -/
def u32OfI32 (i : Int) : Nat := (i % 2 ^ 32).toNat

/-- Rust's `as usize` cast of an `i32`: sign-extension reinterpreted as an
unsigned 64-bit value. -/
def usizeOfI32 (i : Int) : Nat := (i % 2 ^ 64).toNat

/-- Modelled from the spec: the runtime `Real::round` (math.rs, not among the
visible sources) rounds half-to-even to an integer, as the original GM8 runner
does.  Only the fact that integers round to themselves matters below. -/
def roundHalfEven (q : ℚ) : Int :=
  let f := ⌊q⌋
  let r := q - (f : ℚ)
  if r < 1 / 2 then f
  else if 1 / 2 < r then f + 1
  else if f % 2 = 0 then f else f + 1

/-- The inclusive integer range `a..=b` of a Rust `for` loop, as a list
(empty when `b < a`). -/
def rangeIcc (a b : Int) : List Int :=
  (List.range (b + 1 - a).toNat).map (fun k => a + (k : Int))

/-- `GetAsset::get_asset` for `Vec<Option<T>>` (game.rs): a negative index or
an out-of-range index or a `None` slot all give `None`. -/
def get_asset {α : Type} (xs : List (Option α)) (index : Int) : Option α :=
  if index < 0 then none
  else
    match xs.get? index.toNat with
    | some (some t) => some t
    | _ => none

/-! ## Timelines (`Game::frame`, timeline advance phase) -/

/-- A timeline asset: its moments in the iteration order of the asset's moment
map, each a key paired with an opaque tag standing for the compiled action
tree it executes.  The asset record itself lives outside the visible sources;
only the fields read by `Game::frame` are modelled. -/
structure Timeline where
  moments : List (Int × Nat)
deriving DecidableEq

/-- The timeline-advance phase of `Game::frame` for a single instance
(game.rs, the loop `while let Some(handle) = iter.next ...` in the
"Advance timelines" section): if the instance's timeline is running and its
timeline asset exists, the cursor is set to `old + speed` and every moment
whose key `m` satisfies `old ≤ m < old + speed` is executed, in moment-map
order.  Returns the new cursor and the executed moments; the execution of the
action trees themselves is the external GML interpreter. -/
def timelineAdvance (timelines : List (Option Timeline))
    (timeline_running : Bool) (timeline_index : Int)
    (timeline_position timeline_speed : ℚ) : ℚ × List (Int × Nat) :=
  if timeline_running then
    match get_asset timelines timeline_index with
    | some tl =>
        let old_position := timeline_position
        let new_position := old_position + timeline_speed
        (new_position,
          tl.moments.filter fun m =>
            decide ((m.1 : ℚ) ≥ old_position) && decide ((m.1 : ℚ) < new_position))
    | none => (timeline_position, [])
  else (timeline_position, [])

/-! ## Collision engine (`Game::check_collision` and friends) -/

/-- A collision mask of the runtime's sprite asset (`asset::sprite::Collider`
of the emulator crate; the record itself is outside the visible sources, its
fields are those read by game.rs): a `width`-pitched boolean mask with a
bounding box, all `u32` fields modelled as `Nat`. -/
structure Collider where
  width : Nat
  bbox_left : Nat
  bbox_right : Nat
  bbox_top : Nat
  bbox_bottom : Nat
  data : List Bool
deriving DecidableEq

/-- The fields of the emulator's sprite asset read by the collision queries. -/
structure Sprite where
  origin_x : Int
  origin_y : Int
  colliders : List Collider
  per_frame_colliders : Bool
deriving DecidableEq

/-- The fields of a live `Instance` (instance.rs, outside the visible sources)
read by the collision queries in game.rs. -/
structure Inst where
  x : ℚ
  y : ℚ
  image_xscale : ℚ
  image_yscale : ℚ
  image_angle : ℚ
  image_index : ℚ
  sprite_index : Int
  mask_index : Int
deriving DecidableEq

/-- A computed bounding box, the four `i32` cells written by
`Instance::update_bbox`. -/
structure BBox where
  left : Int
  top : Int
  right : Int
  bottom : Int
deriving DecidableEq

/-- The externals of the collision code: `Instance::update_bbox`
(instance.rs), the trigonometry `image_angle.to_radians().sin()/.cos()`
(transcendental, kept abstract), and `util::rotate_around` (util.rs).  All are
pure; the claims proved below hold for every choice of them. -/
structure CollisionEnv where
  updateBbox : Inst → Option Sprite → BBox
  sinDeg : ℚ → ℚ
  cosDeg : ℚ → ℚ
  rotateAround : ℚ → ℚ → ℚ → ℚ → ℚ → ℚ → ℚ × ℚ

/-- The sprite used as the instance's mask:
`if mask_index < 0 { sprite_index } else { mask_index }` looked up with
`get_asset`. -/
def maskSprite (sprites : List (Option Sprite)) (inst : Inst) : Option Sprite :=
  get_asset sprites (if inst.mask_index < 0 then inst.sprite_index else inst.mask_index)

/-- The mask-bit test shared by all collision queries: the four bbox
comparisons (each `u32` bbox field cast `as i32`) and then
`data.get(y*width + x).copied().unwrap_or(false)` with `x`, `y` cast
`as usize`. -/
def maskLookup (c : Collider) (x y : Int) : Bool :=
  decide (x ≥ i32OfU32 c.bbox_left) && decide (y ≥ i32OfU32 c.bbox_top) &&
  decide (x ≤ i32OfU32 c.bbox_right) && decide (y ≤ i32OfU32 c.bbox_bottom) &&
  ((c.data.get? ((usizeOfI32 y * (c.width % 2 ^ 64) + usizeOfI32 x) % 2 ^ 64)).getD false)

/-- Collider selection in `check_collision`:
`colliders.get((image_index.floor().round() % colliders.len() as i32) as usize)`
when `per_frame_colliders`, else `colliders.first()`.  The outer `none` is the
Rust panic on `% 0` (an empty collider vector with `per_frame_colliders` set);
a negative remainder wraps `as usize` to an index far past the vector, giving
`None` from `get`. -/
def selectColliderCC (s : Sprite) (image_index : ℚ) : Option (Option Collider) :=
  if s.per_frame_colliders then
    let len : Int := i32OfU32 s.colliders.length
    if len = 0 then none
    else
      let idx := Int.tmod ⌊image_index⌋ len
      some (s.colliders.get? (usizeOfI32 idx))
  else some s.colliders.head?

/-- Collider selection in the point/rectangle/line queries:
`colliders.get(image_index.floor().into_inner() as usize % colliders.len())`.
The f64-to-usize cast saturates at `0` and `2^64 - 1`; `% 0` panics (outer
`none`). -/
def selectColliderPt (s : Sprite) (image_index : ℚ) : Option (Option Collider) :=
  if s.per_frame_colliders then
    if s.colliders.length = 0 then none
    else
      let f := ⌊image_index⌋
      let u : Nat := if f < 0 then 0 else min f.toNat (2 ^ 64 - 1)
      some (s.colliders.get? (u % s.colliders.length))
  else some s.colliders.head?

/-- The per-point transform shared by `check_collision`,
`check_collision_rectangle` and `check_collision_line` for one instance:
rotate the point around the instance's rounded position, unscale with
`floor`, offset by the sprite origin, round, then test the mask bit. -/
def maskCheckAt (env : CollisionEnv) (s : Sprite) (c : Collider) (inst : Inst)
    (px py : ℚ) : Bool :=
  let cx := roundHalfEven inst.x
  let cy := roundHalfEven inst.y
  let sn := env.sinDeg inst.image_angle
  let cs := env.cosDeg inst.image_angle
  let p := env.rotateAround px py (cx : ℚ) (cy : ℚ) sn cs
  let x := roundHalfEven ((s.origin_x : ℚ) + ((⌊(p.1 - (cx : ℚ)) / inst.image_xscale⌋ : Int) : ℚ))
  let y := roundHalfEven ((s.origin_y : ℚ) + ((⌊(p.2 - (cy : ℚ)) / inst.image_yscale⌋ : Int) : ℚ))
  maskLookup c x y

/-- `maskCheckAt` at an integer pixel of an intersection rectangle. -/
def pixelHit (env : CollisionEnv) (s : Sprite) (c : Collider) (inst : Inst)
    (ix iy : Int) : Bool :=
  maskCheckAt env s c inst (ix : ℚ) (iy : ℚ)

/-- `Game::check_collision` (game.rs).  `instGet` models
`self.instance_list.get`; `i1`, `i2` are instance handles.  The result is
`none` exactly when the Rust code would panic (see `selectColliderCC`),
otherwise `some` of the boolean the Rust code returns. -/
def check_collision (env : CollisionEnv) (sprites : List (Option Sprite))
    (instGet : Nat → Inst) (i1 i2 : Nat) : Option Bool :=
  if i1 = i2 then some false
  else
    let inst1 := instGet i1
    let inst2 := instGet i2
    let sprite1 := maskSprite sprites inst1
    let sprite2 := maskSprite sprites inst2
    let b1 := env.updateBbox inst1 sprite1
    let b2 := env.updateBbox inst2 sprite2
    if b1.right < b2.left || b2.right < b1.left || b1.bottom < b2.top || b2.bottom < b1.top then
      some false
    else
      match sprite1, sprite2 with
      | some s1, some s2 =>
        match selectColliderCC s1 inst1.image_index with
        | none => none
        | some none => some false
        | some (some c1) =>
          match selectColliderCC s2 inst2.image_index with
          | none => none
          | some none => some false
          | some (some c2) =>
            let intersect_top := max b1.top b2.top
            let intersect_bottom := min b1.bottom b2.bottom
            let intersect_left := max b1.left b2.left
            let intersect_right := min b1.right b2.right
            some ((rangeIcc intersect_top intersect_bottom).any fun iy =>
              (rangeIcc intersect_left intersect_right).any fun ix =>
                pixelHit env s1 c1 inst1 ix iy && pixelHit env s2 c2 inst2 ix iy)
      | _, _ => some false

/-- The per-point transform of `check_collision_point`: unlike the pixel
variant it uses the instance's unrounded position and no `floor`. -/
def pointHit (env : CollisionEnv) (s : Sprite) (c : Collider) (inst : Inst)
    (px py : Int) : Bool :=
  let sn := env.sinDeg inst.image_angle
  let cs := env.cosDeg inst.image_angle
  let p := env.rotateAround (px : ℚ) (py : ℚ) inst.x inst.y sn cs
  let x := roundHalfEven ((s.origin_x : ℚ) + (p.1 - inst.x) / inst.image_xscale)
  let y := roundHalfEven ((s.origin_y : ℚ) + (p.2 - inst.y) / inst.image_yscale)
  maskLookup c x y

/-- `Game::check_collision_point` (game.rs). -/
def check_collision_point (env : CollisionEnv) (sprites : List (Option Sprite))
    (instGet : Nat → Inst) (i : Nat) (x y : Int) (precise : Bool) : Option Bool :=
  let inst := instGet i
  let sprite := maskSprite sprites inst
  let b := env.updateBbox inst sprite
  if b.right < x || x < b.left || b.bottom < y || y < b.top then some false
  else if !precise then some true
  else
    match sprite with
    | some s =>
      match selectColliderPt s inst.image_index with
      | none => none
      | some none => some false
      | some (some c) => some (pointHit env s c inst x y)
    | none => some false

/-- `Game::check_collision_rectangle` (game.rs). -/
def check_collision_rectangle (env : CollisionEnv) (sprites : List (Option Sprite))
    (instGet : Nat → Inst) (i : Nat) (x1 y1 x2 y2 : Int) (precise : Bool) : Option Bool :=
  let inst := instGet i
  let sprite := maskSprite sprites inst
  let b := env.updateBbox inst sprite
  let rect_left := min x1 x2
  let rect_top := min y1 y2
  let rect_right := max x1 x2
  let rect_bottom := max y1 y2
  if b.right < rect_left || rect_right < b.left || b.bottom < rect_top || rect_bottom < b.top then
    some false
  else if !precise then some true
  else
    match sprite with
    | some s =>
      match selectColliderPt s inst.image_index with
      | none => none
      | some none => some false
      | some (some c) =>
        some ((rangeIcc (max b.top rect_top) (min b.bottom rect_bottom)).any fun iy =>
          (rangeIcc (max b.left rect_left) (min b.right rect_right)).any fun ix =>
            pixelHit env s c inst ix iy)
    | none => some false

/-- The horizontal clipping of `check_collision_line` (game.rs): swap the
endpoints so `x1 ≤ x2`, then clip the left end to `bbox_left` and the right
end to `bbox_right + 1` (the preserved off-by-one), interpolating `y`. -/
def lineClip (bbox_left bbox_right : ℚ) (x1 y1 x2 y2 : ℚ) : ℚ × ℚ × ℚ × ℚ :=
  let p := if x2 < x1 then (x2, y2, x1, y1) else (x1, y1, x2, y2)
  let q :=
    if p.1 < bbox_left then
      (bbox_left, (p.2.2.2 - p.2.1) * (bbox_left - p.1) / (p.2.2.1 - p.1) + p.2.1,
        p.2.2.1, p.2.2.2)
    else p
  if q.2.2.1 > bbox_right + 1 then
    (q.1, q.2.1, bbox_right + 1,
      (q.2.2.2 - q.2.1) * ((bbox_right + 1) - q.2.2.1) / (q.2.2.1 - q.1) + q.2.2.2)
  else q

/-- The `get_point` sampler of `check_collision_line`: walk whichever axis has
the greater extent; `w` is the (possibly re-swapped) rounded endpoint tuple. -/
def lineSample (iter_vert : Bool) (point_count : Int) (w : Int × Int × Int × Int)
    (k : Int) : ℚ × ℚ :=
  if point_count = 1 then ((w.1 : ℚ), (w.2.1 : ℚ))
  else if iter_vert then
    ((w.1 : ℚ) + (k : ℚ) * ((w.2.2.1 - w.1 : Int) : ℚ) / ((w.2.2.2 - w.2.1 : Int) : ℚ),
      ((w.2.1 + k : Int) : ℚ))
  else
    (((w.1 + k : Int) : ℚ),
      (w.2.1 : ℚ) + (k : ℚ) * ((w.2.2.2 - w.2.1 : Int) : ℚ) / ((w.2.2.1 - w.1 : Int) : ℚ))

/-- `Game::check_collision_line` (game.rs): AABB against the line's bounding
rectangle (with the preserved `+1` off-by-one on the far edges), horizontal
clipping, vertical overlap check, then precise sampling along the longer
axis. -/
def check_collision_line (env : CollisionEnv) (sprites : List (Option Sprite))
    (instGet : Nat → Inst) (i : Nat) (x1 y1 x2 y2 : ℚ) (precise : Bool) : Option Bool :=
  let inst := instGet i
  let sprite := maskSprite sprites inst
  let b := env.updateBbox inst sprite
  let bbox_left : ℚ := (b.left : ℚ)
  let bbox_right : ℚ := (b.right : ℚ)
  let bbox_top : ℚ := (b.top : ℚ)
  let bbox_bottom : ℚ := (b.bottom : ℚ)
  let rect_left := min x1 x2
  let rect_right := max x1 x2
  let rect_top := min y1 y2
  let rect_bottom := max y1 y2
  if bbox_right + 1 ≤ rect_left || rect_right < bbox_left
      || bbox_bottom + 1 ≤ rect_top || rect_bottom < bbox_top then
    some false
  else
    let r := lineClip bbox_left bbox_right x1 y1 x2 y2
    if (bbox_top > r.2.1 ∧ bbox_top > r.2.2.2)
        || (r.2.1 ≥ bbox_bottom + 1 ∧ r.2.2.2 ≥ bbox_bottom + 1) then
      some false
    else if !precise then some true
    else
      match sprite with
      | some s =>
        match selectColliderPt s inst.image_index with
        | none => none
        | some none => some false
        | some (some c) =>
          let lx1 := roundHalfEven r.1
          let ly1 := roundHalfEven r.2.1
          let lx2 := roundHalfEven r.2.2.1
          let ly2 := roundHalfEven r.2.2.2
          let iter_vert := (lx2 - lx1).natAbs < (ly2 - ly1).natAbs
          let point_count := (if iter_vert then ly2 - ly1 else lx2 - lx1) + 1
          let w := if iter_vert ∧ ly2 < ly1 then (lx2, ly2, lx1, ly1) else (lx1, ly1, lx2, ly2)
          some ((rangeIcc 0 (point_count - 1)).any fun k =>
            let pt := lineSample iter_vert point_count w k
            maskCheckAt env s c inst pt.1 pt.2)
      | none => some false

/-- The specification's plain AABB overlap test between an instance bounding
box and the rectangle spanned by two corners: the two closed boxes intersect.
This is written from the spec's words ("the bounding-box overlap test"), to be
compared with what `check_collision_rectangle(precise=false)` computes. -/
def aabbOverlapTest (b : BBox) (x1 y1 x2 y2 : Int) : Bool :=
  decide (b.left ≤ max x1 x2) && decide (min x1 x2 ≤ b.right) &&
  decide (b.top ≤ max y1 y2) && decide (min y1 y2 ≤ b.bottom)

/-- "Empty mask" for an instance against a sprite table: either no sprite
resolves for the instance's mask, or every collider of the resolved sprite has
no mask bit set. -/
def InstMaskEmpty (sprites : List (Option Sprite)) (inst : Inst) : Prop :=
  match maskSprite sprites inst with
  | none => True
  | some s => ∀ c ∈ s.colliders, ∀ b ∈ c.data, b = false

/-- Well-formedness of a sprite table as established by the asset loader:
a sprite with `per_frame_colliders` set has a nonempty collider vector (the
loader creates one collider per frame and only sets the flag when there is at
least one frame).  This is exactly the condition under which the collision
queries cannot reach the `% 0` panic. -/
def SpritesWF (sprites : List (Option Sprite)) : Prop :=
  ∀ s ∈ sprites, ∀ sp, s = some sp →
    (sp.per_frame_colliders = true → sp.colliders ≠ [] ∧ sp.colliders.length < 2 ^ 32)

/-- A concrete collision environment for witnesses: point bounding box at the
origin, identity rotation. -/
def envW : CollisionEnv where
  updateBbox := fun _ _ => ⟨0, 0, 0, 0⟩
  sinDeg := fun _ => 0
  cosDeg := fun _ => 1
  rotateAround := fun x y _ _ _ _ => (x, y)

/-- A 1×1 fully solid collision mask. -/
def colliderW : Collider := ⟨1, 0, 0, 0, 0, [true]⟩

/-- A sprite with the single solid mask `colliderW`. -/
def spriteW : Sprite := ⟨0, 0, [colliderW], false⟩

/-- A sprite with no colliders at all (and `per_frame_colliders` unset). -/
def spriteE : Sprite := ⟨0, 0, [], false⟩

/-- An instance at the origin with unit scales and no rotation, using sprite
slot 0 as its mask. -/
def instW : Inst := ⟨0, 0, 1, 1, 0, 0, 0, 0⟩

/-! ## Event index (`Game::fill_event_holders`) -/

/-- The fields of an `Object` asset read by `fill_event_holders` (the asset
record is outside the visible sources): `events` is the per-category list of
declared event sub-keys (`u32`), in event-map iteration order, one list per
each of the 12 event categories; `children` is the precomputed descendant-id
set (which includes the object's own id), in iteration order. -/
structure ObjectM where
  events : List (List Nat)
  children : List Int

/-- `gml::ev::COLLISION`, the index of the collision category among the 12
event categories (the `ev` constants live outside the visible sources; the
collision category is the fifth). -/
def evCOLLISION : Nat := 4

/-- An `IndexMap<u32, Rc<RefCell<Vec<ID>>>>` modelled as an association list
in insertion order. -/
abbrev AMap := List (Nat × List Int)

/-- The list held under key `k` (empty when the key is absent). -/
def entryList (m : AMap) (k : Nat) : List Int :=
  match m.find? (fun p => p.1 == k) with
  | some p => p.2
  | none => []

/-- The keys of the map in insertion order. -/
def keysOf (m : AMap) : List Nat := m.map Prod.fst

/-- Apply `f` to the entry under key `k` (no effect when absent). -/
def amapUpd (m : AMap) (k : Nat) (f : List Int → List Int) : AMap :=
  m.map fun p => if p.1 = k then (p.1, f p.2) else p

/-- `entry(k).or_insert(Default::default())`: appends an empty entry at the
end when the key is absent, as `IndexMap::entry` does. -/
def ensureKey (m : AMap) (k : Nat) : AMap :=
  if m.any (fun p => p.1 == k) then m else m ++ [(k, [])]

/-- The guarded push `if !list.contains(x) { list.push(x) }`. -/
def pushUnique (l : List Int) (x : Int) : List Int :=
  if l.contains x then l else l ++ [x]

/-- `entry(k).or_insert(default)` followed by one guarded push. -/
def amapPush (m : AMap) (k : Nat) (x : Int) : AMap :=
  amapUpd (ensureKey m k) k (fun l => pushUnique l x)

/-- `entry(k).or_insert(default)` followed by guarded pushes of all of `xs`. -/
def amapPushAll (m : AMap) (k : Nat) (xs : List Int) : AMap :=
  xs.foldl (fun mm x => amapPush mm k x) (ensureKey m k)

/-- Build pass 1 of `fill_event_holders`: for every object (in asset order)
and every `(category, sub)` it declares, register the object's whole
descendant set under that sub-key, skipping already-present ids. -/
def fillPass1 (holders : List AMap) (objects : List (Option ObjectM)) : List AMap :=
  objects.foldl
    (fun hs obj? =>
      match obj? with
      | none => hs
      | some obj =>
          (hs.zip obj.events).map fun he =>
            he.2.foldl (fun hm sub => amapPushAll hm sub obj.children) he.1)
    holders

/-- One step of the collision expansion loop body (`fill_event_holders`,
"Swap collision events over to targets and their children"): for the current
`collider` registered under `key`, push all of `key`'s object's children into
the entry under `collider as u32`, then push `collider` into the entry under
each child's id. -/
def innerBody (children : List Int) (m : AMap) (collider : Int) : AMap :=
  let m1 := amapPushAll m (u32OfI32 collider) children
  children.foldl (fun mm ch => amapPush mm (u32OfI32 ch) collider) m1

/-- The inner `while let Some(collider) = list.get(j)` loop: `list` aliases
the entry under `key` (an `Rc` clone), so the current entry is re-read each
iteration and newly appended colliders are processed too.  `fuel` bounds the
iteration count; `fill_event_holders` instantiates it with `innerFuel`, which
is provably sufficient because the entry under `key` can grow by at most the
(finitely many) children not yet present. -/
def innerLoop (children : List Int) (key : Nat) : Nat → AMap → Nat → AMap
  | 0, m, _ => m
  | fuel + 1, m, j =>
    match (entryList m key).get? j with
    | none => m
    | some collider => innerLoop children key fuel (innerBody children m collider) (j + 1)

/-- A sufficient fuel for `innerLoop`: current entry length plus the number of
children (the only ids that can be appended to the aliased entry). -/
def innerFuel (children : List Int) (key : Nat) (m : AMap) : Nat :=
  (entryList m key).length + children.length + 1

/-- The outer `while let Some(key) = collision_holders.get_index(i)` loop of
the collision expansion: iterate over the keys in insertion order, including
keys appended during the loop; keys whose object does not exist are
skipped. -/
def outerLoop (objects : List (Option ObjectM)) : Nat → AMap → Nat → AMap
  | 0, m, _ => m
  | fuel + 1, m, i =>
    match (keysOf m).get? i with
    | none => m
    | some key =>
      match objects.get? key with
      | some (some obj) =>
          outerLoop objects fuel
            (innerLoop obj.children key (innerFuel obj.children key m) m 0) (i + 1)
      | _ => outerLoop objects fuel m (i + 1)

/-- A sufficient fuel for `outerLoop`: every key ever inserted is the `u32`
cast of an id that occurs in some entry or among some object's children, so
the number of outer iterations is bounded by the initial key count plus the
total number of such ids. -/
def outerFuel (objects : List (Option ObjectM)) (m : AMap) : Nat :=
  m.length + (m.map (fun p => p.2.length)).sum
    + ((objects.filterMap id).map (fun o => o.children.length)).sum + 1

/-- Build pass 2 of `fill_event_holders` on the collision category map. -/
def fillPass2 (objects : List (Option ObjectM)) (m : AMap) : AMap :=
  outerLoop objects (outerFuel objects m) m 0

/-- The collision map after build pass 1, starting from `holders`. -/
def collisionAfterPass1 (holders : List AMap) (objects : List (Option ObjectM)) : AMap :=
  ((fillPass1 holders objects).get? evCOLLISION).getD []

/-- The collision map after the bidirectional expansion (build pass 2),
before the legacy target-key drop. -/
def collisionAfterExpansion (holders : List AMap) (objects : List (Option ObjectM)) : AMap :=
  fillPass2 objects (collisionAfterPass1 holders objects)

/-- `list.retain(|x| *x >= *sub as _)`: keep only ids at least the sub-key
cast `as i32`. -/
def retainGE (m : AMap) : AMap :=
  m.map fun p => (p.1, p.2.filter (fun x => decide (x ≥ i32OfU32 p.1)))

/-- `retain(|_, x| !x.is_empty())`: drop entries whose list is empty. -/
def dropEmptyEntries (m : AMap) : AMap := m.filter (fun p => !p.2.isEmpty)

/-- The final normalisation of `fill_event_holders`: sort the map's entries
by key (`sort_by(|x, _, y, _| x.cmp(y))`, a stable sort) and sort every list
ascending (`Vec::sort`; on integer lists any comparison sort computes the same
result, so a structurally recursive insertion sort stands in for Rust's merge
sort). -/
def sortHolders (m : AMap) : AMap :=
  (List.insertionSort (fun p q => p.1 ≤ q.1) m).map
    fun p => (p.1, List.insertionSort (· ≤ ·) p.2)

/-- `Game::fill_event_holders` (game.rs): build pass 1 for all categories,
the collision expansion with the legacy `target-key < holder-key` drop and
empty-entry drop, then sorting of every holder list. -/
def fill_event_holders (holders : List AMap) (objects : List (Option ObjectM)) :
    List AMap :=
  let hs := fillPass1 holders objects
  let collision := fillPass2 objects ((hs.get? evCOLLISION).getD [])
  let hs := hs.set evCOLLISION (dropEmptyEntries (retainGE collision))
  hs.map sortHolders

/-- The event holder array as cleared by `refresh_event_holders` (or as fresh
at launch): 12 empty maps. -/
def emptyHolders : List AMap := List.replicate 12 []

/-- `m'` extends `m` entry-wise: every entry list of `m'` is the corresponding
entry list of `m` (empty when absent) with some suffix appended.  All
operations of `fill_event_holders` only append to entry lists, never remove
or reorder, until the final retain/sort normalisation. -/
def Grows (m m' : AMap) : Prop := ∀ k, ∃ e, entryList m' k = entryList m k ++ e

/-- `keysOf m'` extends `keysOf m`: keys are only ever appended. -/
def KeysExt (m m' : AMap) : Prop := ∃ e, keysOf m' = keysOf m ++ e

/-- A per-category view of build pass 1: the 12 category maps are updated
independently by `fillPass1`, so the map of category `n` equals this fold of
the per-object registrations over category `n` alone (proved below as
`fillPass1_get?`). -/
def catFold (objects : List (Option ObjectM)) (n : Nat) (m : AMap) : AMap :=
  objects.foldl
    (fun mm obj? =>
      match obj? with
      | none => mm
      | some obj =>
          ((obj.events.get? n).getD []).foldl
            (fun hm sub => amapPushAll hm sub obj.children) mm)
    m

/-- A concrete object for witnesses: it declares one collision handler with
target key 1, and its descendant set is just itself (id 0). -/
def objH : ObjectM := ⟨[[], [], [], [], [1], [], [], [], [], [], [], []], [0]⟩

/-- A concrete target object for witnesses (id 1, no declared events). -/
def objT : ObjectM := ⟨List.replicate 12 [], [1]⟩

/-- A concrete object table for witnesses: `objH` at id 0, `objT` at id 1. -/
def objectsW : List (Option ObjectM) := [some objH, some objT]

/-- Every entry list of the map is free of duplicates.  All pushes in
`fill_event_holders` are guarded by a `contains` check, so this is an
invariant of both build passes. -/
def MapNodup (m : AMap) : Prop := ∀ p ∈ m, p.2.Nodup

/-! ## Sprite asset serialization (decoder crate, `src/asset/sprite.rs`) -/

/-- sprite.rs `Frame`: `u32` dimensions and the raw RGBA byte data. -/
structure FrameD where
  width : Nat
  height : Nat
  data : List Nat
deriving DecidableEq

/-- sprite.rs `CollisionMap`: `u32` bounding-box fields and the unpacked
boolean mask. -/
structure CollisionMapD where
  bbox_width : Nat
  bbox_height : Nat
  bbox_left : Nat
  bbox_right : Nat
  bbox_bottom : Nat
  bbox_top : Nat
  data : List Bool
deriving DecidableEq

/-- sprite.rs `Sprite` of the decoder crate.  The name is kept as its raw
bytes; the Pascal-string codec of byteio.rs (outside the visible sources)
writes a `u32` length followed by the bytes. -/
structure SpriteD where
  name : List Nat
  origin_x : Int
  origin_y : Int
  frames : List FrameD
  colliders : List CollisionMapD
  per_frame_colliders : Bool
deriving DecidableEq

/-- Modelled from the spec: byteio.rs (not among the visible sources) writes
a `u32` in little-endian byte order; the value is reduced mod `2^32` as the
`as u32` casts in sprite.rs do. -/
def w32 (v : Nat) : List Nat :=
  [v % 2 ^ 32 % 256, v % 2 ^ 32 / 256 % 256, v % 2 ^ 32 / 65536 % 256,
    v % 2 ^ 32 / 16777216 % 256]

/-- Modelled from the spec: byteio.rs writes an `i32` as its two's-complement
`u32` bit pattern, little-endian. -/
def wI32 (v : Int) : List Nat := w32 (u32OfI32 v)

/-- Modelled from the spec: byteio.rs `write_pas_string` writes the byte
length as a `u32` followed by the bytes. -/
def writePasString (s : List Nat) : List Nat := w32 s.length ++ s

/-- `Sprite::serialize` (sprite.rs): name, version 800, origins, and — when
there are frames — frame count, each frame (version, dimensions, data length,
data), the `per_frame_colliders` flag as `u32`, and each collider (version,
six bbox fields, one `u32` per mask pixel); with no frames only a zero
count. -/
def serializeSprite (s : SpriteD) : List Nat :=
  writePasString s.name ++ w32 800 ++ wI32 s.origin_x ++ wI32 s.origin_y ++
  (if s.frames.length ≠ 0 then
    w32 s.frames.length ++
    (s.frames.flatMap fun fr =>
      w32 800 ++ w32 fr.width ++ w32 fr.height ++ w32 fr.data.length ++ fr.data) ++
    w32 (if s.per_frame_colliders then 1 else 0) ++
    (s.colliders.flatMap fun c =>
      w32 800 ++ w32 c.bbox_width ++ w32 c.bbox_height ++ w32 c.bbox_left ++
      w32 c.bbox_right ++ w32 c.bbox_bottom ++ w32 c.bbox_top ++
      (c.data.flatMap fun b => w32 (if b then 1 else 0)))
  else w32 0)

/-- Deserialization failures: an I/O error from byteio (read past the end),
the strict-mode version mismatch from `assert_ver`, or the deserializer's own
`panic!`/`unreachable!` aborts. -/
inductive DErr
  | ioError
  | versionError
  | panicked
deriving DecidableEq

/-- Modelled from the spec: byteio.rs `read_u32_le` reads four bytes at the
cursor position, little-endian. -/
def rdU32 (bs : List Nat) (pos : Nat) : Except DErr (Nat × Nat) :=
  match (bs.drop pos).take 4 with
  | [a, b, c, d] => .ok (a + 256 * b + 65536 * c + 16777216 * d, pos + 4)
  | _ => .error .ioError

/-- Modelled from the spec: byteio.rs `read_i32_le`. -/
def rdI32 (bs : List Nat) (pos : Nat) : Except DErr (Int × Nat) :=
  match rdU32 bs pos with
  | .error e => .error e
  | .ok (v, pos') => .ok (i32OfU32 v, pos')

/-- Modelled from the spec: an exact read of `n` bytes at the cursor
(errors when the data runs out, succeeds trivially for `n = 0`). -/
def rdBytes (bs : List Nat) (pos n : Nat) : Except DErr (List Nat × Nat) :=
  if n = 0 then .ok ([], pos)
  else if pos + n ≤ bs.length then .ok ((bs.drop pos).take n, pos + n)
  else .error .ioError

/-- Modelled from the spec: byteio.rs `read_pas_string` reads a `u32` length
then that many bytes. -/
def rdPasString (bs : List Nat) (pos : Nat) : Except DErr (List Nat × Nat) :=
  match rdU32 bs pos with
  | .error e => .error e
  | .ok (len, pos') => rdBytes bs pos' len

/-- The version guard of `Sprite::deserialize`: in strict mode read the `u32`
and compare with the expected version (`assert_ver`, outside the visible
sources, errors on mismatch); otherwise seek 4 bytes forward (a `Cursor` seek
never fails). -/
def rdVersion (bs : List Nat) (strict : Bool) (expected : Nat) (pos : Nat) :
    Except DErr Nat :=
  if strict then
    match rdU32 bs pos with
    | .error e => .error e
    | .ok (v, pos') => if v = expected then .ok pos' else .error .versionError
  else .ok (pos + 4)

/-- `bytes.get(pos..pos + n)`: `some` of the slice when fully in range. -/
def sliceGet (bs : List Nat) (pos n : Nat) : Option (List Nat) :=
  if pos + n ≤ bs.length then some ((bs.drop pos).take n) else none

/-- `chunks_exact(4)` + nonzero test of `Sprite::deserialize`'s collision
reader: every 4 bytes become one mask bit (a trailing partial chunk is
dropped). -/
def bytesToMask : List Nat → List Bool
  | a :: b :: c :: d :: rest =>
      decide (a + 256 * b + 65536 * c + 16777216 * d ≠ 0) :: bytesToMask rest
  | _ => []

/-- The frame loop of `Sprite::deserialize`: for each of `n` frames read the
frame version, dimensions and pixel data length, `panic!` when the length is
inconsistent with the dimensions, then slice the pixel data (the slice is
checked by the preceding seek; a failure is the `unreachable!` panic). -/
def rdFrames (bs : List Nat) (strict : Bool) : Nat → Nat → Except DErr (List FrameD × Nat)
  | 0, pos => .ok ([], pos)
  | n + 1, pos =>
    match rdVersion bs strict 800 pos with
    | .error e => .error e
    | .ok pos =>
      match rdU32 bs pos with
      | .error e => .error e
      | .ok (w, pos) =>
        match rdU32 bs pos with
        | .error e => .error e
        | .ok (h, pos) =>
          match rdU32 bs pos with
          | .error e => .error e
          | .ok (len, pos) =>
            if len ≠ w * h * 4 then .error .panicked
            else
              match sliceGet bs pos len with
              | none => .error .panicked
              | some data =>
                match rdFrames bs strict n (pos + len) with
                | .error e => .error e
                | .ok (frames, pos') => .ok (⟨w, h, data⟩ :: frames, pos')

/-- `read_collision` of `Sprite::deserialize`: version, the six bbox fields,
then `4 * bbox_width * bbox_height` mask bytes unpacked to booleans. -/
def rdCollision (bs : List Nat) (strict : Bool) (pos : Nat) :
    Except DErr (CollisionMapD × Nat) :=
  match rdVersion bs strict 800 pos with
  | .error e => .error e
  | .ok pos =>
  match rdU32 bs pos with
  | .error e => .error e
  | .ok (bw, pos) =>
  match rdU32 bs pos with
  | .error e => .error e
  | .ok (bh, pos) =>
  match rdU32 bs pos with
  | .error e => .error e
  | .ok (bl, pos) =>
  match rdU32 bs pos with
  | .error e => .error e
  | .ok (br, pos) =>
  match rdU32 bs pos with
  | .error e => .error e
  | .ok (bb, pos) =>
  match rdU32 bs pos with
  | .error e => .error e
  | .ok (bt, pos) =>
    let mask_size := bw * bh
    match sliceGet bs pos (4 * mask_size) with
    | none => .error .panicked
    | some chunk => .ok (⟨bw, bh, bl, br, bb, bt, bytesToMask chunk⟩, pos + 4 * mask_size)

/-- The collider loop of `Sprite::deserialize` when `per_frame_colliders` is
set: one collider per frame. -/
def rdColliders (bs : List Nat) (strict : Bool) :
    Nat → Nat → Except DErr (List CollisionMapD × Nat)
  | 0, pos => .ok ([], pos)
  | n + 1, pos =>
    match rdCollision bs strict pos with
    | .error e => .error e
    | .ok (c, pos') =>
      match rdColliders bs strict n pos' with
      | .error e => .error e
      | .ok (cs, pos'') => .ok (c :: cs, pos'')

/-- `Sprite::deserialize` (sprite.rs). -/
def deserializeSprite (bs : List Nat) (strict : Bool) : Except DErr SpriteD :=
  match rdPasString bs 0 with
  | .error e => .error e
  | .ok (name, pos) =>
  match rdVersion bs strict 800 pos with
  | .error e => .error e
  | .ok pos =>
  match rdI32 bs pos with
  | .error e => .error e
  | .ok (origin_x, pos) =>
  match rdI32 bs pos with
  | .error e => .error e
  | .ok (origin_y, pos) =>
  match rdU32 bs pos with
  | .error e => .error e
  | .ok (frame_count, pos) =>
    if frame_count ≠ 0 then
      match rdFrames bs strict frame_count pos with
      | .error e => .error e
      | .ok (frames, pos) =>
        match rdU32 bs pos with
        | .error e => .error e
        | .ok (pfc, pos) =>
          if pfc ≠ 0 then
            match rdColliders bs strict frame_count pos with
            | .error e => .error e
            | .ok (colliders, _) =>
                .ok ⟨name, origin_x, origin_y, frames, colliders, true⟩
          else
            match rdCollision bs strict pos with
            | .error e => .error e
            | .ok (c, _) => .ok ⟨name, origin_x, origin_y, frames, [c], false⟩
    else .ok ⟨name, origin_x, origin_y, [], [], false⟩

deriving instance DecidableEq for Except

/-- The well-formedness under which serialization round-trips: at least one
frame, all `u32` fields and lengths within `u32` range, origins within `i32`
range, frame data consistent with the dimensions, the collider count
consistent with `per_frame_colliders`, and each mask's data matching its
bounding-box area. -/
def SpriteWFD (s : SpriteD) : Prop :=
  s.name.length < 2 ^ 32 ∧
  -(2 ^ 31) ≤ s.origin_x ∧ s.origin_x < 2 ^ 31 ∧
  -(2 ^ 31) ≤ s.origin_y ∧ s.origin_y < 2 ^ 31 ∧
  s.frames ≠ [] ∧ s.frames.length < 2 ^ 32 ∧
  (∀ fr ∈ s.frames, fr.width < 2 ^ 32 ∧ fr.height < 2 ^ 32 ∧
    fr.data.length = fr.width * fr.height * 4 ∧ fr.data.length < 2 ^ 32) ∧
  (if s.per_frame_colliders then s.colliders.length = s.frames.length
   else s.colliders.length = 1) ∧
  (∀ c ∈ s.colliders, c.bbox_width < 2 ^ 32 ∧ c.bbox_height < 2 ^ 32 ∧
    c.bbox_left < 2 ^ 32 ∧ c.bbox_right < 2 ^ 32 ∧ c.bbox_bottom < 2 ^ 32 ∧
    c.bbox_top < 2 ^ 32 ∧ c.data.length = c.bbox_width * c.bbox_height)

/-- A sprite satisfying the claim's stated hypotheses (collider count
consistent with the flag; frame data length matching the dimensions) whose
collider mask data is nevertheless inconsistent with its bounding box: one
degenerate frame and one collider with an empty 0×0 bounding box but one mask
bit. -/
def spriteCX : SpriteD :=
  ⟨[], 0, 0, [⟨0, 0, []⟩], [⟨0, 0, 0, 0, 0, 0, [true]⟩], false⟩


/-! ### Frame scheduler (`Game::frame`) -/

/-- `SceneChange` (game.rs): a queued room change, restart, or end request. -/
inductive SceneChangeM where
  | Room (id : Int)
  | Restart
  | End
deriving DecidableEq

/-- The state visible to the frame scheduler: the queued scene change and the
rest of the interpreter state, abstracted as `σ`. -/
structure FrameSt (σ : Type) where
  scene_change : Option SceneChangeM
  sim : σ
deriving DecidableEq

/-- `trigger::TriggerTime` as used by `Game::frame`. -/
inductive TriggerTime where
  | BeginStep
  | Step
  | EndStep
deriving DecidableEq

/-- `gml::ev::STEP`, the index of the step category among the 12 event
categories (the `ev` constants live outside the visible sources; the step
category is the fourth). -/
def evSTEP : Nat := 3

/-- The phase bodies `Game::frame` calls, abstracted: trigger and event
runners and the other interpreter-driven phases may update any state and may
fail with a GML error `ε`; the phases whose source statements carry no `?`
are infallible. -/
structure FrameHooks (σ ε : Type) where
  snapshotPrev : FrameSt σ → FrameSt σ
  run_triggers : TriggerTime → FrameSt σ → Except ε (FrameSt σ)
  run_object_event : Nat → Nat → FrameSt σ → Except ε (FrameSt σ)
  advanceTimelines : FrameSt σ → Except ε (FrameSt σ)
  run_alarms : FrameSt σ → Except ε (FrameSt σ)
  run_keyboard_events : FrameSt σ → Except ε (FrameSt σ)
  run_mouse_events : FrameSt σ → Except ε (FrameSt σ)
  run_key_press_events : FrameSt σ → Except ε (FrameSt σ)
  run_key_release_events : FrameSt σ → Except ε (FrameSt σ)
  movement : FrameSt σ → Except ε (FrameSt σ)
  run_bound_events : FrameSt σ → Except ε (FrameSt σ)
  run_collisions : FrameSt σ → Except ε (FrameSt σ)
  particles : FrameSt σ → FrameSt σ
  removeDeleted : FrameSt σ → FrameSt σ
  draw : FrameSt σ → Except ε (FrameSt σ)
  moveBackgrounds : FrameSt σ → FrameSt σ
  advanceAnimations : FrameSt σ → Except ε (FrameSt σ)
  applyCaption : FrameSt σ → FrameSt σ

/-- Runs a list of phases in order; a phase tagged `true` is followed by the
source's `if self.scene_change.is_some() { return Ok(()) }` check. -/
def runPhases {σ ε : Type} :
    List (Bool × (FrameSt σ → Except ε (FrameSt σ))) → FrameSt σ →
    Except ε (FrameSt σ)
  | [], s => Except.ok s
  | (chk, f) :: rest, s =>
    match f s with
    | Except.error e => Except.error e
    | Except.ok s1 =>
      if chk && s1.scene_change.isSome then Except.ok s1 else runPhases rest s1

/-- The phase sequence of `Game::frame` (game.rs 1133–1296) after the
previous-position snapshot, each paired with whether the source follows it
with a scene-change check: checks follow the begin-step triggers, the
begin-step event, the alarm, held-keyboard, held-mouse, key-press and
key-release events, the step triggers, the step event, the bound events, the
collisions, the end-step triggers and the end-step event; no check follows
the timeline advance, the movement integration, or any phase from the
particle update onward. -/
def framePhases {σ ε : Type} (h : FrameHooks σ ε) :
    List (Bool × (FrameSt σ → Except ε (FrameSt σ))) :=
  [ (true, h.run_triggers TriggerTime.BeginStep),
    (true, h.run_object_event evSTEP 1),
    (false, h.advanceTimelines),
    (true, h.run_alarms),
    (true, h.run_keyboard_events),
    (true, h.run_mouse_events),
    (true, h.run_key_press_events),
    (true, h.run_key_release_events),
    (true, h.run_triggers TriggerTime.Step),
    (true, h.run_object_event evSTEP 0),
    (false, h.movement),
    (true, h.run_bound_events),
    (true, h.run_collisions),
    (true, h.run_triggers TriggerTime.EndStep),
    (true, h.run_object_event evSTEP 2),
    (false, fun s => Except.ok (h.particles s)),
    (false, fun s => Except.ok (h.removeDeleted s)),
    (false, h.draw),
    (false, fun s => Except.ok (h.moveBackgrounds s)),
    (false, h.advanceAnimations),
    (false, fun s => Except.ok (h.applyCaption s)) ]

/-- `Game::frame`: snapshot previous positions, then run the phases with the
source's scene-change checks. -/
def frame {σ ε : Type} (h : FrameHooks σ ε) (s : FrameSt σ) :
    Except ε (FrameSt σ) :=
  runPhases (framePhases h) (h.snapshotPrev s)

/-- A phase body for testing `frame`: appends its phase number to the log
and, when `scAt` names this phase, queues the given scene change. -/
def logStep (scAt : Nat → Option SceneChangeM) (n : Nat)
    (s : FrameSt (List Nat)) : FrameSt (List Nat) :=
  ⟨match scAt n with
   | some c => some c
   | none => s.scene_change, s.sim ++ [n]⟩

/-- Hooks whose phases log their phase number (0 = snapshot, 1 = begin-step
triggers, 2 = begin-step event, 3 = timelines, 4 = alarms, …, 21 = caption)
and queue a scene change at the phases named by `scAt`. -/
def logHooks (scAt : Nat → Option SceneChangeM) :
    FrameHooks (List Nat) Unit where
  snapshotPrev := logStep scAt 0
  run_triggers := fun t s => Except.ok (logStep scAt
    (match t with
     | TriggerTime.BeginStep => 1
     | TriggerTime.Step => 9
     | TriggerTime.EndStep => 14) s)
  run_object_event := fun _ sub s => Except.ok (logStep scAt
    (match sub with
     | 1 => 2
     | 0 => 10
     | _ => 15) s)
  advanceTimelines := fun s => Except.ok (logStep scAt 3 s)
  run_alarms := fun s => Except.ok (logStep scAt 4 s)
  run_keyboard_events := fun s => Except.ok (logStep scAt 5 s)
  run_mouse_events := fun s => Except.ok (logStep scAt 6 s)
  run_key_press_events := fun s => Except.ok (logStep scAt 7 s)
  run_key_release_events := fun s => Except.ok (logStep scAt 8 s)
  movement := fun s => Except.ok (logStep scAt 11 s)
  run_bound_events := fun s => Except.ok (logStep scAt 12 s)
  run_collisions := fun s => Except.ok (logStep scAt 13 s)
  particles := logStep scAt 16
  removeDeleted := logStep scAt 17
  draw := fun s => Except.ok (logStep scAt 18 s)
  moveBackgrounds := logStep scAt 19
  advanceAnimations := fun s => Except.ok (logStep scAt 20 s)
  applyCaption := logStep scAt 21

/-- Hooks whose timeline-advance phase (number 3) queues a game end. -/
def cxHooks : FrameHooks (List Nat) Unit :=
  logHooks fun n => if n = 3 then some SceneChangeM.End else none

/-- Hooks whose alarm phase (number 4) queues a restart. -/
def whHooks : FrameHooks (List Nat) Unit :=
  logHooks fun n => if n = 4 then some SceneChangeM.Restart else none


/-! ### Run, record, and replay loops (`Game::run`, `Game::record`, `Game::replay`) -/

/-- Modelled from the spec: a recorded input event (`replay::Input` as matched
in game.rs 1670–1677). -/
inductive InputEv where
  | KeyPress (k : Nat)
  | KeyRelease (k : Nat)
  | MousePress (b : Nat)
  | MouseRelease (b : Nat)
  | MouseWheelUp
  | MouseWheelDown
deriving DecidableEq

/-- Modelled from the spec: one recorded tick (`replay::Frame`): recorded
input events, optional RNG reseed, optional time override, mouse position,
emitted side-channel events, tick rate at capture. -/
structure FrameR where
  inputs : List InputEv
  new_seed : Option Int
  new_time : Option Nat
  mouse_x : Int
  mouse_y : Int
  events : List Nat
  tick_rate : Nat
deriving DecidableEq

/-- Modelled from the spec: `Replay` = start seed, start time, ordered frame
sequence. -/
structure ReplayM where
  start_seed : Int
  start_time : Nat
  frames : List FrameR
deriving DecidableEq

/-- The game state the three run loops read and write: the queued scene
change, the RNG seed, the spoofed clock, the input manager (abstracted as
`ι`), the stored side-channel events, the room speed, and the rest of the
interpreter state (abstracted as `σ`). -/
structure GState (ι σ : Type) where
  scene_change : Option SceneChangeM
  seed : Int
  spoofed_time_nanos : Option Nat
  input : ι
  stored_events : List Nat
  room_speed : Nat
  sim : σ
deriving DecidableEq

/-- The operations the three run loops call, abstracted: `Game::frame`,
`load_room`, `restart` and `run_game_end_events` may update any state and
may fail; window-event processing is infallible; the close flag is sampled
once per tick; the input-manager operations act on the abstract input
state `ι`. -/
structure LoopHooks (ι σ ε : Type) where
  frameFn : GState ι σ → Except ε (GState ι σ)
  load_room : Int → GState ι σ → Except ε (GState ι σ)
  restart : GState ι σ → Except ε (GState ι σ)
  run_game_end_events : GState ι σ → Except ε (GState ι σ)
  process_window_events : GState ι σ → GState ι σ
  window_process_events : GState ι σ → GState ι σ
  close_requested : Nat → Bool
  protocol_error : ε
  key_press : Nat → ι → ι
  key_release : Nat → ι → ι
  mouse_press : Nat → ι → ι
  mouse_release : Nat → ι → ι
  mouse_scroll_up : ι → ι
  mouse_scroll_down : ι → ι
  mouse_update_previous : ι → ι
  set_mouse_pos : Int → Int → ι → ι

/-- The frame limiter's clock bookkeeping (game.rs 1343–1347 and 1698–1702):
when a spoofed clock is active it advances by `10^9 / room_speed`
nanoseconds per tick. -/
def advanceTime {ι σ : Type} (st : GState ι σ) : GState ι σ :=
  { st with spoofed_time_nanos :=
      st.spoofed_time_nanos.map (· + 1000000000 / st.room_speed) }

/-- The tail the `run` and `replay` loop bodies share (game.rs 1336–1351 and
1688–1704): if a window close is requested, fire the game-end events and
halt with their result; otherwise advance the spoofed clock and continue.
`Sum.inl` continues with the next tick, `Sum.inr` halts. -/
def runTickClose {ι σ ε : Type} (h : LoopHooks ι σ ε) (tick : Nat)
    (st : GState ι σ) : Except ε (GState ι σ ⊕ GState ι σ) :=
  if h.close_requested tick then
    match h.run_game_end_events st with
    | Except.error e => Except.error e
    | Except.ok st2 => Except.ok (Sum.inr st2)
  else Except.ok (Sum.inl (advanceTime st))

/-- One iteration of the `Game::run` loop body (game.rs 1325–1352): process
window events, run a frame, resolve a pending scene change (room load /
restart / game end), then the shared close check and frame limiter. -/
def runTick {ι σ ε : Type} (h : LoopHooks ι σ ε) (tick : Nat)
    (st0 : GState ι σ) : Except ε (GState ι σ ⊕ GState ι σ) :=
  match h.frameFn (h.process_window_events st0) with
  | Except.error e => Except.error e
  | Except.ok st1 =>
    match st1.scene_change with
    | some (SceneChangeM.Room id) =>
      match h.load_room id st1 with
      | Except.error e => Except.error e
      | Except.ok st2 => runTickClose h tick st2
    | some SceneChangeM.Restart =>
      match h.restart st1 with
      | Except.error e => Except.error e
      | Except.ok st2 => runTickClose h tick st2
    | some SceneChangeM.End =>
      match h.run_game_end_events st1 with
      | Except.error e => Except.error e
      | Except.ok st2 => Except.ok (Sum.inr st2)
    | none => runTickClose h tick st1

/-- The `Game::run` loop, with fuel bounding the number of ticks observed:
`some` is a terminated run's final state, `none` means the fuel ran out. -/
def runLoop {ι σ ε : Type} (h : LoopHooks ι σ ε) :
    Nat → Nat → GState ι σ → Except ε (Option (GState ι σ))
  | 0, _, _ => Except.ok none
  | fuel + 1, tick, st =>
    match runTick h tick st with
    | Except.error e => Except.error e
    | Except.ok (Sum.inr fin) => Except.ok (some fin)
    | Except.ok (Sum.inl st1) => runLoop h fuel (tick + 1) st1

/-- One recorded input applied to the input manager (game.rs 1670–1677). -/
def applyInput {ι σ ε : Type} (h : LoopHooks ι σ ε) (i : ι) : InputEv → ι
  | InputEv.KeyPress v => h.key_press v i
  | InputEv.KeyRelease v => h.key_release v i
  | InputEv.MousePress b => h.mouse_press b i
  | InputEv.MouseRelease b => h.mouse_release b i
  | InputEv.MouseWheelUp => h.mouse_scroll_up i
  | InputEv.MouseWheelDown => h.mouse_scroll_down i

/-- An optional RNG reseed (`if let Some(seed) = ... { self.rand.set_seed(seed) }`). -/
def seedUpd {ι σ : Type} (ns : Option Int) (st : GState ι σ) : GState ι σ :=
  match ns with
  | some s => { st with seed := s }
  | none => st

/-- An optional time override (`if let Some(time) = frame.new_time { ... }`). -/
def timeUpd {ι σ : Type} (nt : Option Nat) (st : GState ι σ) : GState ι σ :=
  match nt with
  | some t => { st with spoofed_time_nanos := some t }
  | none => st

/-- Applying one replay frame to the state before running the tick's frame
(game.rs 1653–1679): replace the stored events with the frame's, apply an
optional reseed and time override, set the mouse position, then apply the
recorded inputs in order. -/
def applyFrame {ι σ ε : Type} (h : LoopHooks ι σ ε) (fr : FrameR)
    (st0 : GState ι σ) : GState ι σ :=
  let st := timeUpd fr.new_time
    (seedUpd fr.new_seed { st0 with stored_events := fr.events })
  let st := { st with input := h.set_mouse_pos fr.mouse_x fr.mouse_y st.input }
  { st with input := fr.inputs.foldl (applyInput h) st.input }

/-- The first half of one `Game::replay` loop iteration (game.rs 1650–1679):
process window events, save the previous mouse state, and apply the recorded
frame if one remains. -/
def replayPreState {ι σ ε : Type} (h : LoopHooks ι σ ε) (r : ReplayM)
    (tick : Nat) (st0 : GState ι σ) : GState ι σ :=
  let sa := h.window_process_events st0
  let sb := { sa with input := h.mouse_update_previous sa.input }
  match r.frames.get? tick with
  | some fr => applyFrame h fr sb
  | none => sb

/-- The scene-change resolution and loop tail of one `Game::replay`
iteration. -/
def replayTick {ι σ ε : Type} (h : LoopHooks ι σ ε) (r : ReplayM)
    (tick : Nat) (st0 : GState ι σ) : Except ε (GState ι σ ⊕ GState ι σ) :=
  match h.frameFn (replayPreState h r tick st0) with
  | Except.error e => Except.error e
  | Except.ok st1 =>
    match st1.scene_change with
    | some (SceneChangeM.Room id) =>
      match h.load_room id st1 with
      | Except.error e => Except.error e
      | Except.ok st2 => runTickClose h tick st2
    | some SceneChangeM.Restart =>
      match h.restart st1 with
      | Except.error e => Except.error e
      | Except.ok st2 => runTickClose h tick st2
    | some SceneChangeM.End =>
      match h.run_game_end_events st1 with
      | Except.error e => Except.error e
      | Except.ok st2 => Except.ok (Sum.inr st2)
    | none => runTickClose h tick st1

/-- The `Game::replay` loop, with fuel bounding the number of ticks. -/
def replayLoop {ι σ ε : Type} (h : LoopHooks ι σ ε) (r : ReplayM) :
    Nat → Nat → GState ι σ → Except ε (Option (GState ι σ))
  | 0, _, _ => Except.ok none
  | fuel + 1, tick, st =>
    match replayTick h r tick st with
    | Except.error e => Except.error e
    | Except.ok (Sum.inr fin) => Except.ok (some fin)
    | Except.ok (Sum.inl st1) => replayLoop h r fuel (tick + 1) st1

/-- `Game::replay` (game.rs 1644–1648 then the loop): set the RNG seed and
the spoofed clock from the replay's start values, then run the loop from
tick 0. -/
def replayRun {ι σ ε : Type} (h : LoopHooks ι σ ε) (r : ReplayM)
    (fuel : Nat) (st : GState ι σ) : Except ε (Option (GState ι σ)) :=
  replayLoop h r fuel 0
    { st with seed := r.start_seed, spoofed_time_nanos := some r.start_time }

/-- A message the record session may receive (game.rs 1453–1575): an
`Advance` with the tick's inputs, mouse location and optional reseed, a
`SetUpdateMouse` toggle, or an out-of-sequence message, which aborts the
session.  `none` stands for `Some(None)`, a poll with no message; the end of
the message list stands for a disconnect. -/
inductive MessageM where
  | Advance (key_inputs : List (Nat × Bool)) (mouse_inputs : List (Nat × Bool))
      (mouse_location : Int × Int) (new_seed : Option Int)
  | SetUpdateMouse (b : Bool)
  | Unexpected
deriving DecidableEq

/-- One key delta of an `Advance` (game.rs 1476–1484): press or release the
key and append the matching recorded input to the frame under construction. -/
def recordKeyFold {ι σ ε : Type} (h : LoopHooks ι σ ε)
    (p : ι × List InputEv) (kp : Nat × Bool) : ι × List InputEv :=
  if kp.2 then (h.key_press kp.1 p.1, p.2 ++ [InputEv.KeyPress kp.1])
  else (h.key_release kp.1 p.1, p.2 ++ [InputEv.KeyRelease kp.1])

/-- One mouse-button delta of an `Advance` (game.rs 1485–1493). -/
def recordMouseFold {ι σ ε : Type} (h : LoopHooks ι σ ε)
    (p : ι × List InputEv) (bp : Nat × Bool) : ι × List InputEv :=
  if bp.2 then (h.mouse_press bp.1 p.1, p.2 ++ [InputEv.MousePress bp.1])
  else (h.mouse_release bp.1 p.1, p.2 ++ [InputEv.MouseRelease bp.1])

/-- Processing one `Advance` message (game.rs 1456–1529): build the tick's
frame, apply an optional reseed, apply and record the key and mouse deltas,
save the previous mouse state, set the mouse position, run a frame, resolve
a pending scene change — a queued game end restarts the game and the
session continues — then capture the stored events into the frame, clear
them, and append the frame to the replay.  First half: reseed and inputs. -/
def recordPreState {ι σ ε : Type} (h : LoopHooks ι σ ε)
    (key_inputs mouse_inputs : List (Nat × Bool))
    (mouse_location : Int × Int) (new_seed : Option Int)
    (st0 : GState ι σ) : GState ι σ × List InputEv :=
  let st := seedUpd new_seed st0
  let p := mouse_inputs.foldl (recordMouseFold h)
             (key_inputs.foldl (recordKeyFold h) (st.input, []))
  let i := h.set_mouse_pos mouse_location.1 mouse_location.2
             (h.mouse_update_previous p.1)
  ({ st with input := i }, p.2)

/-- The frame call, scene-change resolution — a queued game end restarts the
game and the session continues — and frame capture of one `Advance`. -/
def recordAdvance {ι σ ε : Type} (h : LoopHooks ι σ ε) (rp : ReplayM)
    (key_inputs mouse_inputs : List (Nat × Bool))
    (mouse_location : Int × Int) (new_seed : Option Int)
    (st0 : GState ι σ) : Except ε (GState ι σ × ReplayM) :=
  let q := recordPreState h key_inputs mouse_inputs mouse_location new_seed st0
  match h.frameFn q.1 with
  | Except.error e => Except.error e
  | Except.ok st1 =>
    match (match st1.scene_change with
           | some (SceneChangeM.Room id) => h.load_room id st1
           | some SceneChangeM.Restart => h.restart st1
           | some SceneChangeM.End => h.restart st1
           | none => Except.ok st1) with
    | Except.error e => Except.error e
    | Except.ok st2 =>
      Except.ok ({ st2 with stored_events := [] },
        { rp with frames := rp.frames ++
          [{ inputs := q.2, new_seed := new_seed, new_time := none,
             mouse_x := mouse_location.1, mouse_y := mouse_location.2,
             events := st2.stored_events, tick_rate := st0.room_speed }] })

/-- Processing one received message (game.rs 1453–1575); `Save` and `Load`
exchange save states with the file system and are outside this model. -/
def recordMsg {ι σ ε : Type} (h : LoopHooks ι σ ε) (st : GState ι σ)
    (rp : ReplayM) (dum : Bool) :
    Option MessageM → Except ε (GState ι σ × ReplayM × Bool)
  | none => Except.ok (st, rp, dum)
  | some (MessageM.Advance ki mi ml ns) =>
    match recordAdvance h rp ki mi ml ns st with
    | Except.error e => Except.error e
    | Except.ok (st1, rp1) => Except.ok (st1, rp1, dum)
  | some (MessageM.SetUpdateMouse b) => Except.ok (st, rp, b)
  | some MessageM.Unexpected => Except.error h.protocol_error

/-- The `Game::record` loop (game.rs 1452–1640), driven by the list of
incoming messages: a disconnect (end of list, source line 1574) breaks with
`Ok`; otherwise process the message, process window events, and break with
`Ok` if a window close is requested (source lines 1636–1638) — in both exit
paths without running the game-end events. -/
def recordLoop {ι σ ε : Type} (h : LoopHooks ι σ ε) :
    List (Option MessageM) → Nat → GState ι σ → ReplayM → Bool →
    Except ε (Option (GState ι σ × ReplayM))
  | [], _, st, rp, _ => Except.ok (some (st, rp))
  | m :: rest, tick, st, rp, dum =>
    match recordMsg h st rp dum m with
    | Except.error e => Except.error e
    | Except.ok (st1, rp1, dum1) =>
      let st2 := h.window_process_events st1
      if h.close_requested tick then Except.ok (some (st2, rp1))
      else recordLoop h rest (tick + 1) st2 rp1 dum1

/-- The fields of the loop state the determinism contract tracks: the queued
scene change, the RNG seed, the input manager, the room speed, and the
interpreter state — everything mutable except the spoofed clock and the
stored-events queue, which record and replay thread differently. -/
def coreEq {ι σ : Type} (a b : GState ι σ) : Prop :=
  a.scene_change = b.scene_change ∧ a.seed = b.seed ∧ a.input = b.input ∧
  a.room_speed = b.room_speed ∧ a.sim = b.sim

/-- A frame function that reads and writes only the tracked fields: on
`coreEq` inputs it errors identically or succeeds with `coreEq` outputs. -/
def RespectsCore {ι σ ε : Type} (f : GState ι σ → Except ε (GState ι σ)) :
    Prop :=
  ∀ a b, coreEq a b →
    match f a, f b with
    | Except.ok a1, Except.ok b1 => coreEq a1 b1
    | Except.error e, Except.error e1 => e = e1
    | _, _ => False

/-- Hooks for exercising the three loops: the frame function is the identity,
room loads and restarts succeed unchanged, and the game-end events set the
`sim` flag, making their firing observable; a close is always requested. -/
def cxLH : LoopHooks Unit Bool Unit where
  frameFn := fun st => Except.ok st
  load_room := fun _ st => Except.ok st
  restart := fun st => Except.ok st
  run_game_end_events := fun st => Except.ok { st with sim := true }
  process_window_events := fun st => st
  window_process_events := fun st => st
  close_requested := fun _ => true
  protocol_error := ()
  key_press := fun _ i => i
  key_release := fun _ i => i
  mouse_press := fun _ i => i
  mouse_release := fun _ i => i
  mouse_scroll_up := fun i => i
  mouse_scroll_down := fun i => i
  mouse_update_previous := fun i => i
  set_mouse_pos := fun _ _ i => i

/-- A start state for the shutdown scenario: no scene change, seed 0, no
spoofed clock, no stored events, room speed 30, end events not yet fired. -/
def cxSt : GState Unit Bool :=
  ⟨none, 0, none, (), [], 30, false⟩
/-- `self.input_manager.set_mouse_pos(x, y)` lifted to the loop state. -/
def mouseSet {ι σ ε : Type} (h : LoopHooks ι σ ε) (x y : Int)
    (st : GState ι σ) : GState ι σ :=
  { st with input := h.set_mouse_pos x y st.input }

/-- `self.input_manager.mouse_update_previous()` lifted to the loop state. -/
def preInput {ι σ ε : Type} (h : LoopHooks ι σ ε) (st : GState ι σ) :
    GState ι σ :=
  { st with input := h.mouse_update_previous st.input }

/-- Hooks for the record-versus-replay scenario: every frame queues a game
end and counts the tick in `sim`; a restart resets `sim` to 100; game-end
events and everything else leave the state unchanged; no close is ever
requested. -/
def cxRH : LoopHooks Unit Nat Unit where
  frameFn := fun st =>
    Except.ok { st with scene_change := some SceneChangeM.End, sim := st.sim + 1 }
  load_room := fun _ st => Except.ok st
  restart := fun st => Except.ok { st with scene_change := none, sim := 100 }
  run_game_end_events := fun st => Except.ok st
  process_window_events := fun st => st
  window_process_events := fun st => st
  close_requested := fun _ => false
  protocol_error := ()
  key_press := fun _ i => i
  key_release := fun _ i => i
  mouse_press := fun _ i => i
  mouse_release := fun _ i => i
  mouse_scroll_up := fun i => i
  mouse_scroll_down := fun i => i
  mouse_update_previous := fun i => i
  set_mouse_pos := fun _ _ i => i

/-- Hooks for the record/replay tick equivalence: the frame function reads
and writes only the tracked fields (it counts the tick in `sim` and emits a
stored event), never queues a scene change, and no close is requested. -/
def wRH : LoopHooks Unit Nat Unit where
  frameFn := fun st =>
    Except.ok { st with scene_change := none, sim := st.sim + 1, stored_events := st.stored_events ++ [7] }
  load_room := fun _ st => Except.ok st
  restart := fun st => Except.ok st
  run_game_end_events := fun st => Except.ok st
  process_window_events := fun st => st
  window_process_events := fun st => st
  close_requested := fun _ => false
  protocol_error := ()
  key_press := fun _ i => i
  key_release := fun _ i => i
  mouse_press := fun _ i => i
  mouse_release := fun _ i => i
  mouse_scroll_up := fun i => i
  mouse_scroll_down := fun i => i
  mouse_update_previous := fun i => i
  set_mouse_pos := fun _ _ i => i

/-! ### Theorems -/

theorem get_asset_mem {α : Type} {xs : List (Option α)} {i : Int} {t : α}
    (h : get_asset xs i = some t) : some t ∈ xs := by
  unfold get_asset at h
  split at h
  · simp at h
  · split at h
    next heq =>
      cases h
      exact List.get?_mem heq
    next => simp at h

theorem maskLookup_false_of_empty {c : Collider} (h : ∀ b ∈ c.data, b = false)
    (x y : Int) : maskLookup c x y = false := by
  unfold maskLookup
  cases hg : c.data.get? ((usizeOfI32 y * (c.width % 2 ^ 64) + usizeOfI32 x) % 2 ^ 64) with
  | none => simp [hg]
  | some b => simp [hg, h b (List.get?_mem hg)]

/-- C8: in each tick, for an instance whose timeline is running and whose
timeline asset exists, the timeline-advance phase of `Game::frame` sets the
cursor to exactly `old + speed` and executes exactly the moments in the
half-open window `[old, old + speed)`, in moment-map order; in particular a
moment equal to the new cursor does not fire, and nothing fires when the speed
is zero or negative. -/
theorem timeline_advance_window (timelines : List (Option Timeline))
    (idx : Int) (pos speed : ℚ) (tl : Timeline)
    (h : get_asset timelines idx = some tl) :
    (timelineAdvance timelines true idx pos speed).1 = pos + speed ∧
    (timelineAdvance timelines true idx pos speed).2 =
      tl.moments.filter (fun m =>
        decide ((m.1 : ℚ) ≥ pos) && decide ((m.1 : ℚ) < pos + speed)) ∧
    (speed ≤ 0 → (timelineAdvance timelines true idx pos speed).2 = []) := by
  refine ⟨by simp [timelineAdvance, h], by simp [timelineAdvance, h], ?_⟩
  intro hs
  simp only [timelineAdvance, if_true, h]
  refine List.filter_eq_nil_iff.mpr ?_
  intro m _
  simp only [Bool.and_eq_true, decide_eq_true_eq, not_and, not_lt, ge_iff_le]
  intro h1
  linarith

/-- Witness for `timeline_advance_window` at a concrete timeline. -/
theorem timeline_advance_window_witness :
    (timelineAdvance [some ⟨[(0, 5)]⟩] true 0 0 1).1 = 0 + 1 ∧
    (timelineAdvance [some ⟨[(0, 5)]⟩] true 0 0 1).2 =
      ([((0 : Int), (5 : Nat))]).filter (fun m =>
        decide ((m.1 : ℚ) ≥ 0) && decide ((m.1 : ℚ) < 0 + 1)) ∧
    ((1 : ℚ) ≤ 0 → (timelineAdvance [some ⟨[(0, 5)]⟩] true 0 0 1).2 = []) :=
  timeline_advance_window [some ⟨[(0, 5)]⟩] 0 0 1 ⟨[(0, 5)]⟩ rfl

theorem i32OfU32_ne_zero {n : Nat} (h0 : 0 < n) (hlt : n < 2 ^ 32) :
    i32OfU32 n ≠ 0 := by
  unfold i32OfU32
  have hmod : n % 2 ^ 32 = n := Nat.mod_eq_of_lt hlt
  rw [hmod]
  split
  · exact_mod_cast h0.ne'
  · intro hc
    omega

theorem roundHalfEven_intCast (n : Int) : roundHalfEven (n : ℚ) = n := by
  unfold roundHalfEven
  rw [Int.floor_intCast]
  norm_num

theorem selectColliderCC_total {s : Sprite}
    (h : s.per_frame_colliders = true → s.colliders ≠ [] ∧ s.colliders.length < 2 ^ 32)
    (ii : ℚ) : ∃ r, selectColliderCC s ii = some r := by
  unfold selectColliderCC
  by_cases hp : s.per_frame_colliders
  · obtain ⟨hne, hlt⟩ := h hp
    have h0 : 0 < s.colliders.length := List.length_pos.mpr hne
    have hz := i32OfU32_ne_zero h0 hlt
    simp [hp, hz]
  · simp [hp]

theorem selectColliderPt_total {s : Sprite}
    (h : s.per_frame_colliders = true → s.colliders ≠ [] ∧ s.colliders.length < 2 ^ 32)
    (ii : ℚ) : ∃ r, selectColliderPt s ii = some r := by
  unfold selectColliderPt
  by_cases hp : s.per_frame_colliders
  · obtain ⟨hne, _⟩ := h hp
    have h0 : s.colliders.length ≠ 0 := fun hc => hne (List.length_eq_zero.mp hc)
    simp [hp, h0]
  · simp [hp]

theorem selectColliderCC_mem {s : Sprite} {c : Collider} {ii : ℚ}
    (h : selectColliderCC s ii = some (some c)) : c ∈ s.colliders := by
  unfold selectColliderCC at h
  split at h
  · simp only at h
    split at h
    · simp at h
    · injection h with h'
      exact List.get?_mem h'
  · injection h with h'
    exact List.mem_of_mem_head? h'

theorem maskSprite_wf {sprites : List (Option Sprite)} {inst : Inst} {s : Sprite}
    (hwf : SpritesWF sprites) (h : maskSprite sprites inst = some s) :
    s.per_frame_colliders = true → s.colliders ≠ [] ∧ s.colliders.length < 2 ^ 32 :=
  hwf (some s) (get_asset_mem h) s rfl

/-- C6: for every pair of distinct instances whose collision masks are empty
(no mask bit set, or no sprite/collider at all), `check_collision` returns
`false` regardless of positions, scales and angles — the hypotheses say
nothing about the transforms or the abstract geometry environment — and
`check_collision(a, a)` is `false` for every instance. -/
theorem empty_masks_no_collision (env : CollisionEnv) (sprites : List (Option Sprite))
    (instGet : Nat → Inst) (i1 i2 : Nat)
    (hwf : SpritesWF sprites) (_hne : i1 ≠ i2)
    (h1 : InstMaskEmpty sprites (instGet i1)) (_h2 : InstMaskEmpty sprites (instGet i2)) :
    check_collision env sprites instGet i1 i2 = some false ∧
    (∀ a, check_collision env sprites instGet a a = some false) := by
  constructor
  · unfold check_collision
    split
    · rfl
    · simp only []
      split
      · rfl
      · rcases hs1 : maskSprite sprites (instGet i1) with _ | s1 <;>
          rcases hs2 : maskSprite sprites (instGet i2) with _ | s2 <;>
          simp only [hs1, hs2]
        have hsel := selectColliderCC_total (maskSprite_wf hwf hs1) (instGet i1).image_index
        obtain ⟨r, hr⟩ := hsel
        rcases r with _ | c1
        · simp [hr]
        · have hc1 : c1 ∈ s1.colliders := selectColliderCC_mem hr
          unfold InstMaskEmpty at h1
          rw [hs1] at h1
          have hempty : ∀ b ∈ c1.data, b = false := h1 c1 hc1
          have hsel2 := selectColliderCC_total (maskSprite_wf hwf hs2) (instGet i2).image_index
          obtain ⟨r2, hr2⟩ := hsel2
          rcases r2 with _ | c2
          · simp [hr, hr2]
          · simp only [hr, hr2]
            congr 1
            refine List.any_eq_false.mpr ?_
            intro iy _
            refine Bool.not_eq_true _ ▸ ?_
            refine (List.any_eq_false.mpr ?_)
            intro ix _
            unfold pixelHit maskCheckAt
            rw [maskLookup_false_of_empty hempty]
            simp
  · intro a
    unfold check_collision
    simp

/-- Witness for `empty_masks_no_collision`: a concrete instance pair whose
resolved sprite has no colliders. -/
theorem empty_masks_no_collision_witness :
    check_collision envW [some spriteE] (fun _ => instW) 0 1 = some false ∧
    check_collision envW [some spriteE] (fun _ => instW) 2 2 = some false := by
  have hwf : SpritesWF [some spriteE] := by
    intro s hs sp hsp
    simp only [List.mem_singleton] at hs
    subst hs
    injection hsp with hsp
    subst hsp
    intro hp
    simp [spriteE] at hp
  have hme : InstMaskEmpty [some spriteE] instW := by
    unfold InstMaskEmpty
    have : maskSprite [some spriteE] instW = some spriteE := by
      simp [maskSprite, get_asset, instW]
    rw [this]
    intro c hc
    simp [spriteE] at hc
  have h := empty_masks_no_collision envW [some spriteE] (fun _ => instW) 0 1 hwf
    (by decide) hme hme
  exact ⟨h.1, h.2 2⟩

theorem roundHalfEven_zero : roundHalfEven 0 = 0 := by
  have := roundHalfEven_intCast 0
  simpa using this

/-- C5: `check_collision_rectangle` with `precise = false` returns exactly the
bounding-box overlap test between the instance's (freshly updated) AABB and
the rectangle, and `precise = true` never returns `true` where
`precise = false` would not. -/
theorem rectangle_precise_monotone_and_aabb (env : CollisionEnv)
    (sprites : List (Option Sprite)) (instGet : Nat → Inst) (i : Nat)
    (x1 y1 x2 y2 : Int) :
    check_collision_rectangle env sprites instGet i x1 y1 x2 y2 false =
      some (aabbOverlapTest
        (env.updateBbox (instGet i) (maskSprite sprites (instGet i))) x1 y1 x2 y2) ∧
    (check_collision_rectangle env sprites instGet i x1 y1 x2 y2 true = some true →
      check_collision_rectangle env sprites instGet i x1 y1 x2 y2 false = some true) := by
  constructor
  · unfold check_collision_rectangle
    simp only []
    split
    next hC =>
      simp only [Bool.or_eq_true, decide_eq_true_eq] at hC
      have ha : aabbOverlapTest
          (env.updateBbox (instGet i) (maskSprite sprites (instGet i))) x1 y1 x2 y2 = false := by
        unfold aabbOverlapTest
        rcases hC with ((h | h) | h) | h
        · simp only [decide_eq_false (not_le.mpr h), Bool.false_and, Bool.and_false]
        · simp only [decide_eq_false (not_le.mpr h), Bool.false_and, Bool.and_false]
        · simp only [decide_eq_false (not_le.mpr h), Bool.false_and, Bool.and_false]
        · simp only [decide_eq_false (not_le.mpr h), Bool.false_and, Bool.and_false]
      rw [ha]
    next hC =>
      simp only [Bool.or_eq_true, decide_eq_true_eq, not_or, not_lt] at hC
      obtain ⟨⟨⟨h1, h2⟩, h3⟩, h4⟩ := hC
      have ha : aabbOverlapTest
          (env.updateBbox (instGet i) (maskSprite sprites (instGet i))) x1 y1 x2 y2 = true := by
        unfold aabbOverlapTest
        simp only [Bool.and_eq_true, decide_eq_true_eq]
        exact ⟨⟨⟨h2, h1⟩, h4⟩, h3⟩
      rw [ha]
      rfl
  · intro h
    unfold check_collision_rectangle at h ⊢
    simp only [] at h ⊢
    split at h
    next hc => simp at h
    next hc =>
      rw [if_neg hc]
      rfl

/-- Witness for `rectangle_precise_monotone_and_aabb`: a precise hit on a 1×1
solid mask at the origin implies the imprecise result. -/
theorem rectangle_precise_monotone_and_aabb_witness :
    check_collision_rectangle envW [some spriteW] (fun _ => instW) 0 0 0 0 0 false =
      some true :=
  (rectangle_precise_monotone_and_aabb envW [some spriteW] (fun _ => instW) 0 0 0 0 0).2
    (by
      norm_num [check_collision_rectangle, maskSprite, get_asset, instW, envW, spriteW,
        colliderW, selectColliderPt, pixelHit, maskCheckAt, maskLookup, rangeIcc, usizeOfI32,
        i32OfU32, roundHalfEven_zero, Int.floor_zero])

/-- C7: totality of the geometry queries.  Under the loader's sprite
well-formedness (which excludes the only panicking path, remainder by an
empty per-frame collider vector), all four collision queries return `some`
boolean for every instance state; a missing sprite yields `false` for
`check_collision` and for the precise point query, a missing collider yields
`false` for the precise rectangle query, and a mask lookup outside the
collider data contributes `false` to `maskLookup`. -/
theorem collision_queries_total (env : CollisionEnv) (sprites : List (Option Sprite))
    (instGet : Nat → Inst) (hwf : SpritesWF sprites) :
    (∀ i1 i2, (check_collision env sprites instGet i1 i2).isSome) ∧
    (∀ i x y precise, (check_collision_point env sprites instGet i x y precise).isSome) ∧
    (∀ i x1 y1 x2 y2 precise,
      (check_collision_rectangle env sprites instGet i x1 y1 x2 y2 precise).isSome) ∧
    (∀ i x1 y1 x2 y2 precise,
      (check_collision_line env sprites instGet i x1 y1 x2 y2 precise).isSome) ∧
    (∀ i1 i2, maskSprite sprites (instGet i1) = none →
      check_collision env sprites instGet i1 i2 = some false) ∧
    (∀ i x y, maskSprite sprites (instGet i) = none →
      check_collision_point env sprites instGet i x y true = some false) ∧
    (∀ i x1 y1 x2 y2 s, maskSprite sprites (instGet i) = some s →
      selectColliderPt s (instGet i).image_index = some none →
      check_collision_rectangle env sprites instGet i x1 y1 x2 y2 true = some false) ∧
    (∀ c x y,
      c.data.get? ((usizeOfI32 y * (c.width % 2 ^ 64) + usizeOfI32 x) % 2 ^ 64) = none →
      maskLookup c x y = false) := by
  refine ⟨?_, ?_, ?_, ?_, ?_, ?_, ?_, ?_⟩
  · intro i1 i2
    unfold check_collision
    split
    · rfl
    · simp only []
      split
      · rfl
      · rcases hs1 : maskSprite sprites (instGet i1) with _ | s1 <;>
          rcases hs2 : maskSprite sprites (instGet i2) with _ | s2 <;> simp only [hs1, hs2]
        · rfl
        · rfl
        · rfl
        · obtain ⟨r1, hr1⟩ := selectColliderCC_total (maskSprite_wf hwf hs1) (instGet i1).image_index
          obtain ⟨r2, hr2⟩ := selectColliderCC_total (maskSprite_wf hwf hs2) (instGet i2).image_index
          rw [hr1, hr2]
          rcases r1 with _ | c1 <;> rcases r2 with _ | c2 <;> rfl
  · intro i x y precise
    unfold check_collision_point
    simp only []
    split
    · rfl
    · split
      · rfl
      · rcases hs : maskSprite sprites (instGet i) with _ | s <;> simp only [hs]
        · rfl
        · obtain ⟨r, hr⟩ := selectColliderPt_total (maskSprite_wf hwf hs) (instGet i).image_index
          rw [hr]
          rcases r with _ | c <;> rfl
  · intro i x1 y1 x2 y2 precise
    unfold check_collision_rectangle
    simp only []
    split
    · rfl
    · split
      · rfl
      · rcases hs : maskSprite sprites (instGet i) with _ | s <;> simp only [hs]
        · rfl
        · obtain ⟨r, hr⟩ := selectColliderPt_total (maskSprite_wf hwf hs) (instGet i).image_index
          rw [hr]
          rcases r with _ | c <;> rfl
  · intro i x1 y1 x2 y2 precise
    unfold check_collision_line
    simp only []
    split
    · rfl
    · split
      · rfl
      · split
        · rfl
        · rcases hs : maskSprite sprites (instGet i) with _ | s <;> simp only [hs]
          · rfl
          · obtain ⟨r, hr⟩ := selectColliderPt_total (maskSprite_wf hwf hs) (instGet i).image_index
            rw [hr]
            rcases r with _ | c <;> rfl
  · intro i1 i2 hnone
    unfold check_collision
    split
    · rfl
    · simp only []
      split
      · rfl
      · rw [hnone]
  · intro i x y hnone
    unfold check_collision_point
    simp only []
    split
    · rfl
    · split
      next hp => simp at hp
      next hp => rw [hnone]
  · intro i x1 y1 x2 y2 s hs hsel
    unfold check_collision_rectangle
    simp only []
    split
    · rfl
    · split
      next hp => simp at hp
      next hp =>
        rw [hs]
        simp only [hsel]
  · intro c x y hnone
    unfold maskLookup
    rw [hnone]
    simp

/-- Witness for `collision_queries_total` on two concrete sprite tables: an
empty table (every mask lookup missing) and a table with a collider-less
sprite. -/
theorem collision_queries_total_witness :
    (check_collision envW [] (fun _ => instW) 0 1).isSome = true ∧
    (check_collision_point envW [] (fun _ => instW) 0 2 3 true).isSome = true ∧
    (check_collision_rectangle envW [] (fun _ => instW) 0 0 0 1 1 true).isSome = true ∧
    (check_collision_line envW [] (fun _ => instW) 0 0 0 1 1 true).isSome = true ∧
    check_collision envW [] (fun _ => instW) 0 1 = some false ∧
    check_collision_point envW [] (fun _ => instW) 0 2 3 true = some false ∧
    check_collision_rectangle envW [some spriteE] (fun _ => instW) 0 0 0 1 1 true =
      some false ∧
    maskLookup ⟨1, 0, 0, 0, 0, []⟩ 0 0 = false := by
  have hwfE : SpritesWF [] := by
    intro s hs
    simp at hs
  have hwfS : SpritesWF [some spriteE] := by
    intro s hs sp hsp
    simp only [List.mem_singleton] at hs
    subst hs
    injection hsp with hsp
    subst hsp
    intro hp
    simp [spriteE] at hp
  have hnone : maskSprite [] instW = none := by
    simp [maskSprite, get_asset, instW]
  have hsomeE : maskSprite [some spriteE] instW = some spriteE := by
    simp [maskSprite, get_asset, instW]
  have hselE : selectColliderPt spriteE instW.image_index = some none := by
    simp [selectColliderPt, spriteE]
  have hE := collision_queries_total envW [] (fun _ => instW) hwfE
  have hS := collision_queries_total envW [some spriteE] (fun _ => instW) hwfS
  refine ⟨hE.1 0 1, hE.2.1 0 2 3 true, hE.2.2.1 0 0 0 1 1 true, hE.2.2.2.1 0 0 0 1 1 true,
    hE.2.2.2.2.1 0 1 hnone, hE.2.2.2.2.2.1 0 2 3 hnone,
    hS.2.2.2.2.2.2.1 0 0 0 1 1 spriteE hsomeE hselE,
    hE.2.2.2.2.2.2.2 ⟨1, 0, 0, 0, 0, []⟩ 0 0 (by simp)⟩

theorem entryList_nil (k : Nat) : entryList [] k = [] := rfl

theorem entryList_cons (k' : Nat) (l : List Int) (m : AMap) (k : Nat) :
    entryList ((k', l) :: m) k = if k' = k then l else entryList m k := by
  unfold entryList
  rcases h : (k' == k) with _ | _
  · simp only [List.find?_cons, h]
    rw [if_neg (by simpa using h)]
  · simp only [List.find?_cons, h]
    rw [if_pos (by simpa using h)]

theorem keysOf_amapUpd (m : AMap) (k : Nat) (f : List Int → List Int) :
    keysOf (amapUpd m k f) = keysOf m := by
  unfold keysOf amapUpd
  rw [List.map_map]
  refine List.map_congr_left ?_
  intro p _
  by_cases h : p.1 = k <;> simp [h]

theorem keysOf_ensureKey (m : AMap) (k : Nat) :
    keysOf (ensureKey m k) = keysOf m ∨ keysOf (ensureKey m k) = keysOf m ++ [k] := by
  unfold ensureKey
  split
  · exact Or.inl rfl
  · right
    simp [keysOf]

theorem entryList_ensureKey (m : AMap) (k k' : Nat) :
    entryList (ensureKey m k) k' = entryList m k' := by
  unfold ensureKey
  split
  · rfl
  next h =>
    induction m with
    | nil =>
      simp only [List.nil_append]
      rw [show (entryList [] k' : List Int) = [] from rfl, entryList_cons]
      split
      next heq => rfl
      next heq => rfl
    | cons p m ih =>
      simp only [List.any_cons, Bool.or_eq_true, not_or] at h
      rcases p with ⟨pk, pl⟩
      simp only [List.cons_append]
      rw [entryList_cons, entryList_cons]
      split
      · rfl
      · exact ih h.2

theorem mem_keysOf_ensureKey (m : AMap) (k : Nat) : k ∈ keysOf (ensureKey m k) := by
  unfold ensureKey
  split
  next h =>
    simp only [List.any_eq_true, beq_iff_eq] at h
    obtain ⟨p, hp, hk⟩ := h
    unfold keysOf
    exact hk ▸ List.mem_map_of_mem Prod.fst hp
  next h =>
    unfold keysOf
    simp

theorem entryList_amapUpd_ne (m : AMap) (k k' : Nat) (f : List Int → List Int)
    (h : k' ≠ k) : entryList (amapUpd m k f) k' = entryList m k' := by
  induction m with
  | nil => rfl
  | cons p m ih =>
    rcases p with ⟨pk, pl⟩
    unfold amapUpd
    simp only [List.map_cons]
    by_cases hpk : pk = k
    · subst hpk
      rw [if_pos rfl, entryList_cons, entryList_cons, if_neg (fun hc => h hc.symm),
        if_neg (fun hc => h hc.symm)]
      exact ih
    · rw [if_neg hpk, entryList_cons, entryList_cons]
      split
      · rfl
      · exact ih

theorem entryList_amapUpd_mem (m : AMap) (k : Nat) (f : List Int → List Int)
    (h : k ∈ keysOf m) : entryList (amapUpd m k f) k = f (entryList m k) := by
  induction m with
  | nil => simp [keysOf] at h
  | cons p m ih =>
    rcases p with ⟨pk, pl⟩
    unfold amapUpd
    simp only [List.map_cons]
    by_cases hpk : pk = k
    · subst hpk
      rw [if_pos rfl, entryList_cons, entryList_cons, if_pos rfl, if_pos rfl]
    · rw [if_neg hpk, entryList_cons, entryList_cons, if_neg hpk, if_neg hpk]
      refine ih ?_
      simp only [keysOf, List.map_cons, List.mem_cons] at h
      exact h.resolve_left (fun hc => hpk hc.symm)

theorem entryList_amapPush (m : AMap) (k : Nat) (x : Int) :
    entryList (amapPush m k x) k = pushUnique (entryList m k) x := by
  unfold amapPush
  rw [entryList_amapUpd_mem _ _ _ (mem_keysOf_ensureKey m k), entryList_ensureKey]

theorem entryList_amapPush_ne (m : AMap) (k k' : Nat) (x : Int) (h : k' ≠ k) :
    entryList (amapPush m k x) k' = entryList m k' := by
  unfold amapPush
  rw [entryList_amapUpd_ne _ _ _ _ h, entryList_ensureKey]

theorem keysOf_amapPush (m : AMap) (k : Nat) (x : Int) :
    keysOf (amapPush m k x) = keysOf m ∨ keysOf (amapPush m k x) = keysOf m ++ [k] := by
  unfold amapPush
  rw [keysOf_amapUpd]
  exact keysOf_ensureKey m k

theorem pushUnique_of_contains {l : List Int} {x : Int} (h : l.contains x) :
    pushUnique l x = l := by
  unfold pushUnique
  rw [if_pos h]

theorem mem_pushUnique_self (l : List Int) (x : Int) : x ∈ pushUnique l x := by
  unfold pushUnique
  split
  next h => exact List.mem_of_elem_eq_true h
  next h => simp

theorem pushUnique_sub (l : List Int) (x : Int) : l ⊆ pushUnique l x := by
  unfold pushUnique
  split
  · exact fun _ h => h
  · exact fun _ h => List.mem_append_left _ h

theorem foldl_pushUnique_structure (xs l : List Int) :
    ∃ e, xs.foldl pushUnique l = l ++ e ∧ e ⊆ xs ∧ e.Nodup ∧ ∀ y ∈ e, y ∉ l := by
  induction xs generalizing l with
  | nil => exact ⟨[], by simp⟩
  | cons x xs ih =>
    simp only [List.foldl_cons]
    by_cases hc : l.contains x
    · rw [pushUnique_of_contains hc]
      obtain ⟨e, he, hsub, hnd, hdis⟩ := ih l
      exact ⟨e, he, fun y hy => List.mem_cons_of_mem _ (hsub hy), hnd, hdis⟩
    · have hpu : pushUnique l x = l ++ [x] := by
        unfold pushUnique
        rw [if_neg hc]
      rw [hpu]
      obtain ⟨e, he, hsub, hnd, hdis⟩ := ih (l ++ [x])
      refine ⟨x :: e, ?_, ?_, ?_, ?_⟩
      · rw [he, List.append_assoc]
        rfl
      · intro y hy
        rcases List.mem_cons.mp hy with h | h
        · exact h ▸ List.mem_cons_self x xs
        · exact List.mem_cons_of_mem _ (hsub h)
      · refine List.nodup_cons.mpr ⟨?_, hnd⟩
        intro hx
        exact hdis x hx (List.mem_append_right _ (by simp))
      · intro y hy
        rcases List.mem_cons.mp hy with h | h
        · subst h
          exact fun hl => hc (List.elem_eq_true_of_mem hl)
        · exact fun hl => hdis y h (List.mem_append_left _ hl)

theorem sub_foldl_pushUnique (xs l : List Int) : l ⊆ xs.foldl pushUnique l := by
  obtain ⟨e, he, _⟩ := foldl_pushUnique_structure xs l
  rw [he]
  exact List.subset_append_left l e

theorem mem_foldl_pushUnique {x : Int} {xs : List Int} (h : x ∈ xs) (l : List Int) :
    x ∈ xs.foldl pushUnique l := by
  induction xs generalizing l with
  | nil => simp at h
  | cons y ys ih =>
    simp only [List.foldl_cons]
    rcases List.mem_cons.mp h with h | h
    · subst h
      exact sub_foldl_pushUnique ys _ (mem_pushUnique_self l x)
    · exact ih h _

theorem nodup_foldl_pushUnique (xs : List Int) {l : List Int} (h : l.Nodup) :
    (xs.foldl pushUnique l).Nodup := by
  obtain ⟨e, he, _, hnd, hdis⟩ := foldl_pushUnique_structure xs l
  rw [he]
  refine List.Nodup.append h hnd ?_
  intro a ha hae
  exact hdis a hae ha

theorem entryList_foldl_amapPush (xs : List Int) (k : Nat) (m : AMap) :
    entryList (xs.foldl (fun mm x => amapPush mm k x) m) k =
      xs.foldl pushUnique (entryList m k) := by
  induction xs generalizing m with
  | nil => rfl
  | cons x xs ih =>
    simp only [List.foldl_cons]
    rw [ih, entryList_amapPush]

theorem entryList_foldl_amapPush_ne (xs : List Int) (k k' : Nat) (m : AMap)
    (h : k' ≠ k) :
    entryList (xs.foldl (fun mm x => amapPush mm k x) m) k' = entryList m k' := by
  induction xs generalizing m with
  | nil => rfl
  | cons x xs ih =>
    simp only [List.foldl_cons]
    rw [ih, entryList_amapPush_ne _ _ _ _ h]

theorem entryList_amapPushAll (m : AMap) (k : Nat) (xs : List Int) :
    entryList (amapPushAll m k xs) k = xs.foldl pushUnique (entryList m k) := by
  unfold amapPushAll
  rw [entryList_foldl_amapPush, entryList_ensureKey]

theorem entryList_amapPushAll_ne (m : AMap) (k k' : Nat) (xs : List Int)
    (h : k' ≠ k) : entryList (amapPushAll m k xs) k' = entryList m k' := by
  unfold amapPushAll
  rw [entryList_foldl_amapPush_ne _ _ _ _ h, entryList_ensureKey]

theorem grows_refl (m : AMap) : Grows m m := fun k => ⟨[], by simp⟩

theorem grows_trans {m1 m2 m3 : AMap} (h1 : Grows m1 m2) (h2 : Grows m2 m3) :
    Grows m1 m3 := by
  intro k
  obtain ⟨e1, he1⟩ := h1 k
  obtain ⟨e2, he2⟩ := h2 k
  exact ⟨e1 ++ e2, by rw [he2, he1, List.append_assoc]⟩

theorem grows_mem {m m' : AMap} (h : Grows m m') {k : Nat} {x : Int}
    (hx : x ∈ entryList m k) : x ∈ entryList m' k := by
  obtain ⟨e, he⟩ := h k
  rw [he]
  exact List.mem_append_left _ hx

theorem grows_amapPushAll (m : AMap) (k : Nat) (xs : List Int) :
    Grows m (amapPushAll m k xs) := by
  intro k'
  by_cases h : k' = k
  · subst h
    rw [entryList_amapPushAll]
    obtain ⟨e, he, _⟩ := foldl_pushUnique_structure xs (entryList m k')
    exact ⟨e, he⟩
  · rw [entryList_amapPushAll_ne _ _ _ _ h]
    exact ⟨[], by simp⟩

theorem grows_amapPush (m : AMap) (k : Nat) (x : Int) : Grows m (amapPush m k x) := by
  intro k'
  by_cases h : k' = k
  · subst h
    rw [entryList_amapPush]
    unfold pushUnique
    split
    · exact ⟨[], by simp⟩
    · exact ⟨[x], rfl⟩
  · rw [entryList_amapPush_ne _ _ _ _ h]
    exact ⟨[], by simp⟩

theorem grows_foldl_amapPush (xs : List Int) (f : Int → Nat) (v : Int → Int) (m : AMap) :
    Grows m (xs.foldl (fun mm x => amapPush mm (f x) (v x)) m) := by
  induction xs generalizing m with
  | nil => exact grows_refl m
  | cons x xs ih =>
    simp only [List.foldl_cons]
    exact grows_trans (grows_amapPush m (f x) (v x)) (ih _)

theorem grows_innerBody (children : List Int) (m : AMap) (collider : Int) :
    Grows m (innerBody children m collider) := by
  unfold innerBody
  exact grows_trans (grows_amapPushAll m (u32OfI32 collider) children)
    (grows_foldl_amapPush children (fun ch => u32OfI32 ch) (fun _ => collider) _)

theorem grows_innerLoop (children : List Int) (key : Nat) (fuel : Nat) (m : AMap)
    (j : Nat) : Grows m (innerLoop children key fuel m j) := by
  induction fuel generalizing m j with
  | zero => exact grows_refl m
  | succ fuel ih =>
    unfold innerLoop
    split
    · exact grows_refl m
    · exact grows_trans (grows_innerBody children m _) (ih _ _)

theorem grows_outerLoop (objects : List (Option ObjectM)) (fuel : Nat) (m : AMap)
    (i : Nat) : Grows m (outerLoop objects fuel m i) := by
  induction fuel generalizing m i with
  | zero => exact grows_refl m
  | succ fuel ih =>
    unfold outerLoop
    split
    · exact grows_refl m
    · split
      · exact grows_trans (grows_innerLoop _ _ _ m 0) (ih _ _)
      · exact ih _ _

theorem keysExt_refl (m : AMap) : KeysExt m m := ⟨[], by simp⟩

theorem keysExt_trans {m1 m2 m3 : AMap} (h1 : KeysExt m1 m2) (h2 : KeysExt m2 m3) :
    KeysExt m1 m3 := by
  obtain ⟨e1, he1⟩ := h1
  obtain ⟨e2, he2⟩ := h2
  exact ⟨e1 ++ e2, by rw [he2, he1, List.append_assoc]⟩

theorem keysExt_amapPush (m : AMap) (k : Nat) (x : Int) : KeysExt m (amapPush m k x) := by
  rcases keysOf_amapPush m k x with h | h
  · exact ⟨[], by simp [h]⟩
  · exact ⟨[k], h⟩

theorem keysExt_amapPushAll (m : AMap) (k : Nat) (xs : List Int) :
    KeysExt m (amapPushAll m k xs) := by
  unfold amapPushAll
  have base : KeysExt m (ensureKey m k) := by
    rcases keysOf_ensureKey m k with h | h
    · exact ⟨[], by simp [h]⟩
    · exact ⟨[k], h⟩
  refine keysExt_trans base ?_
  generalize ensureKey m k = m0
  induction xs generalizing m0 with
  | nil => exact keysExt_refl m0
  | cons x xs ih =>
    simp only [List.foldl_cons]
    exact keysExt_trans (keysExt_amapPush m0 k x) (ih _)

theorem keysExt_foldl_amapPush (xs : List Int) (f : Int → Nat) (v : Int → Int)
    (m : AMap) : KeysExt m (xs.foldl (fun mm x => amapPush mm (f x) (v x)) m) := by
  induction xs generalizing m with
  | nil => exact keysExt_refl m
  | cons x xs ih =>
    simp only [List.foldl_cons]
    exact keysExt_trans (keysExt_amapPush m (f x) (v x)) (ih _)

theorem keysExt_innerBody (children : List Int) (m : AMap) (collider : Int) :
    KeysExt m (innerBody children m collider) := by
  unfold innerBody
  exact keysExt_trans (keysExt_amapPushAll m (u32OfI32 collider) children)
    (keysExt_foldl_amapPush children (fun ch => u32OfI32 ch) (fun _ => collider) _)

theorem keysExt_innerLoop (children : List Int) (key : Nat) (fuel : Nat) (m : AMap)
    (j : Nat) : KeysExt m (innerLoop children key fuel m j) := by
  induction fuel generalizing m j with
  | zero => exact keysExt_refl m
  | succ fuel ih =>
    unfold innerLoop
    split
    · exact keysExt_refl m
    · exact keysExt_trans (keysExt_innerBody children m _) (ih _ _)

theorem keysExt_get? {m m' : AMap} (h : KeysExt m m') {i : Nat} {k : Nat}
    (hk : (keysOf m).get? i = some k) : (keysOf m').get? i = some k := by
  obtain ⟨e, he⟩ := h
  have hlt : i < (keysOf m).length := by
    by_contra hge
    rw [List.get?_eq_none.mpr (le_of_not_lt hge)] at hk
    exact absurd hk (by simp)
  rw [he, List.get?_append hlt]
  exact hk

theorem innerBody_registers (children : List Int) (m : AMap) (collider : Int) :
    (∀ ch ∈ children, ch ∈ entryList (innerBody children m collider) (u32OfI32 collider)) ∧
    (∀ ch ∈ children, collider ∈ entryList (innerBody children m collider) (u32OfI32 ch)) := by
  unfold innerBody
  constructor
  · intro ch hch
    refine grows_mem (grows_foldl_amapPush children (fun c => u32OfI32 c) (fun _ => collider) _) ?_
    rw [entryList_amapPushAll]
    exact mem_foldl_pushUnique hch _
  · intro ch hch
    generalize hm1 : amapPushAll m (u32OfI32 collider) children = m1
    clear hm1
    induction children generalizing m1 with
    | nil => simp at hch
    | cons c cs ih =>
      simp only [List.foldl_cons]
      rcases List.mem_cons.mp hch with h | h
      · subst h
        refine grows_mem (grows_foldl_amapPush cs (fun x => u32OfI32 x) (fun _ => collider) _) ?_
        rw [entryList_amapPush]
        exact mem_pushUnique_self _ collider
      · exact ih h _

theorem entryList_foldl_amapPush_guarded (cs : List Int) (key : Nat) (collider : Int)
    (m1 : AMap) (hcol : collider ∈ entryList m1 key) :
    entryList (cs.foldl (fun mm ch => amapPush mm (u32OfI32 ch) collider) m1) key =
      entryList m1 key := by
  induction cs generalizing m1 with
  | nil => rfl
  | cons c cs ih
  => simp only [List.foldl_cons]
     by_cases hc : key = u32OfI32 c
     · subst hc
       rw [ih]
       · rw [entryList_amapPush, pushUnique_of_contains (List.elem_eq_true_of_mem hcol)]
       · rw [entryList_amapPush, pushUnique_of_contains (List.elem_eq_true_of_mem hcol)]
         exact hcol
     · rw [ih]
       · rw [entryList_amapPush_ne _ _ _ _ hc]
       · rw [entryList_amapPush_ne _ _ _ _ hc]
         exact hcol

theorem innerBody_entry_key (children : List Int) (m : AMap) (collider : Int)
    (key : Nat) (hcol : collider ∈ entryList m key) :
    ∃ e, entryList (innerBody children m collider) key = entryList m key ++ e ∧
      e ⊆ children ∧ e.Nodup ∧ ∀ y ∈ e, y ∉ entryList m key := by
  unfold innerBody
  simp only []
  by_cases hk : key = u32OfI32 collider
  · subst hk
    obtain ⟨e, he, hsub, hnd, hdis⟩ := foldl_pushUnique_structure children (entryList m (u32OfI32 collider))
    have h1 : entryList (amapPushAll m (u32OfI32 collider) children) (u32OfI32 collider) =
        entryList m (u32OfI32 collider) ++ e := by
      rw [entryList_amapPushAll, he]
    refine ⟨e, ?_, hsub, hnd, hdis⟩
    rw [entryList_foldl_amapPush_guarded _ _ _ _ ?_, h1]
    rw [h1]
    exact List.mem_append_left _ hcol
  · have h1 : entryList (amapPushAll m (u32OfI32 collider) children) key = entryList m key :=
      entryList_amapPushAll_ne _ _ _ _ hk
    refine ⟨[], ?_, by simp, List.nodup_nil, by simp⟩
    rw [List.append_nil, entryList_foldl_amapPush_guarded _ _ _ _ ?_, h1]
    rw [h1]
    exact hcol

theorem filter_count_drop (ch l e : List Int) (hsub : e ⊆ ch) (hnd : e.Nodup)
    (hdis : ∀ y ∈ e, y ∉ l) :
    (ch.filter (fun c => !((l ++ e).contains c))).length + e.length ≤
      (ch.filter (fun c => !(l.contains c))).length := by
  have hsplit :
      (ch.filter (fun c => !(l.contains c))).length =
        ((ch.filter (fun c => !(l.contains c))).filter (fun c => e.contains c)).length +
        ((ch.filter (fun c => !(l.contains c))).filter (fun c => !(e.contains c))).length := by
    have hperm := List.filter_append_perm (fun c => e.contains c)
      (ch.filter (fun c => !(l.contains c)))
    have := hperm.length_eq
    simpa [List.length_append] using this.symm
  have heq : (ch.filter (fun c => !((l ++ e).contains c))) =
      ((ch.filter (fun c => !(l.contains c))).filter (fun c => !(e.contains c))) := by
    rw [List.filter_filter]
    refine List.filter_congr ?_
    intro c _
    have hca : ((l ++ e).contains c) = (l.contains c || e.contains c) := by
      by_cases h1 : c ∈ l <;> by_cases h2 : c ∈ e <;>
        simp [List.contains, h1, h2, List.elem_eq_true_of_mem, List.mem_append]
    rw [hca, Bool.not_or, Bool.and_comm]
  have hlen : e.length ≤
      ((ch.filter (fun c => !(l.contains c))).filter (fun c => e.contains c)).length := by
    refine (List.subperm_of_subset hnd ?_).length_le
    intro y hy
    rw [List.mem_filter, List.mem_filter]
    refine ⟨⟨hsub hy, ?_⟩, List.elem_eq_true_of_mem hy⟩
    simp only [Bool.not_eq_true']
    exact Bool.eq_false_iff.mpr (fun hc => hdis y hy (List.mem_of_elem_eq_true hc))
  rw [heq]
  omega
theorem innerLoop_complete (children : List Int) (key : Nat) :
    ∀ (fuel : Nat) (m : AMap) (j : Nat),
    (entryList m key).length - j +
      (children.filter (fun c => !((entryList m key).contains c))).length < fuel →
    ∀ x ∈ (entryList m key).drop j,
      (∀ ch ∈ children, ch ∈ entryList (innerLoop children key fuel m j) (u32OfI32 x)) ∧
      (∀ ch ∈ children, x ∈ entryList (innerLoop children key fuel m j) (u32OfI32 ch)) := by
  intro fuel
  induction fuel with
  | zero => intro m j hf; omega
  | succ fuel ih =>
    intro m j hf x hx
    rw [innerLoop]
    cases hj : (entryList m key).get? j with
    | none =>
      exfalso
      have : (entryList m key).length ≤ j := by
        by_contra hlt
        rw [List.get?_eq_get (lt_of_not_le hlt)] at hj
        simp at hj
      rw [List.drop_eq_nil_of_le this] at hx
      simp at hx
    | some collider =>
      have hjlt : j < (entryList m key).length := by
        by_contra hge
        rw [List.get?_eq_none.mpr (le_of_not_lt hge)] at hj
        simp at hj
      have hcolmem : collider ∈ entryList m key := by
        have := List.get?_mem hj
        exact this
      obtain ⟨e, he, hesub, hend, hedis⟩ := innerBody_entry_key children m collider key hcolmem
      have hmeasure :
          (entryList (innerBody children m collider) key).length - (j + 1) +
            (children.filter
              (fun c => !((entryList (innerBody children m collider) key).contains c))).length
            < fuel := by
        have hcount := filter_count_drop children (entryList m key) e hesub hend hedis
        rw [he]
        rw [List.length_append]
        omega
      have hdropeq : (entryList m key).drop j =
          collider :: (entryList m key).drop (j + 1) := by
        have := List.drop_eq_get_cons hjlt
        rw [this]
        congr 1
        rw [List.get?_eq_get hjlt] at hj
        exact (Option.some.injEq _ _).mp hj
      rcases (by rw [hdropeq] at hx; exact List.mem_cons.mp hx) with hxc | hxtail
      · subst hxc
        have hreg := innerBody_registers children m x
        constructor
        · intro ch hch
          exact grows_mem (grows_innerLoop children key fuel _ (j + 1)) (hreg.1 ch hch)
        · intro ch hch
          exact grows_mem (grows_innerLoop children key fuel _ (j + 1)) (hreg.2 ch hch)
      · have hxdrop : x ∈ (entryList (innerBody children m collider) key).drop (j + 1) := by
          rw [he, List.drop_append_of_le_length (by omega)]
          exact List.mem_append_left _ hxtail
        exact ih (innerBody children m collider) (j + 1) hmeasure x hxdrop
theorem outerLoop_processes (objects : List (Option ObjectM)) :
    ∀ (fuel : Nat) (m : AMap) (i i0 T : Nat) (obj : ObjectM),
    (keysOf m).get? i0 = some T →
    objects.get? T = some (some obj) →
    i ≤ i0 → i0 - i < fuel →
    ∀ x ∈ entryList m T,
      (∀ ch ∈ obj.children, ch ∈ entryList (outerLoop objects fuel m i) (u32OfI32 x)) ∧
      (∀ ch ∈ obj.children, x ∈ entryList (outerLoop objects fuel m i) (u32OfI32 ch)) := by
  intro fuel
  induction fuel with
  | zero =>
    intro m i i0 T obj _ _ _ h
    omega
  | succ fuel ih =>
    intro m i i0 T obj hkey hobj hi hfuel x hx
    have hi0lt : i0 < (keysOf m).length := by
      by_contra hge
      rw [List.get?_eq_none.mpr (le_of_not_lt hge)] at hkey
      simp at hkey
    rw [outerLoop]
    cases hki : (keysOf m).get? i with
    | none =>
      exfalso
      have hle : (keysOf m).length ≤ i := by
        by_contra hlt
        rw [List.get?_eq_get (lt_of_not_le hlt)] at hki
        simp at hki
      omega
    | some key =>
      simp only []
      by_cases hii : i = i0
      · subst hii
        have hkeyT : key = T := by
          rw [hki] at hkey
          exact (Option.some.injEq _ _).mp hkey
        subst hkeyT
        rw [hobj]
        have hmeas : (entryList m key).length - 0 +
            (obj.children.filter (fun c => !((entryList m key).contains c))).length <
            innerFuel obj.children key m := by
          unfold innerFuel
          have := List.length_filter_le (fun c => !((entryList m key).contains c)) obj.children
          omega
        have hinner := innerLoop_complete obj.children key (innerFuel obj.children key m) m 0
          hmeas x (by simpa using hx)
        have hgrow := grows_outerLoop objects fuel
          (innerLoop obj.children key (innerFuel obj.children key m) m 0) (i + 1)
        exact ⟨fun ch hch => grows_mem hgrow (hinner.1 ch hch),
               fun ch hch => grows_mem hgrow (hinner.2 ch hch)⟩
      · have hilt : i < i0 := lt_of_le_of_ne hi hii
        cases hok : objects.get? key with
        | none =>
          refine ih m (i + 1) i0 T obj hkey hobj (by omega) (by omega) x hx
        | some oo =>
          cases oo with
          | none =>
            refine ih m (i + 1) i0 T obj hkey hobj (by omega) (by omega) x hx
          | some o =>
            have hgrow := grows_innerLoop o.children key (innerFuel o.children key m) m 0
            refine ih _ (i + 1) i0 T obj (keysExt_get? (keysExt_innerLoop _ _ _ _ _) hkey)
              hobj (by omega) (by omega) x (grows_mem hgrow hx)
theorem grows_subsFold (subs : List Nat) (children : List Int) (m : AMap) :
    Grows m (subs.foldl (fun hm sub => amapPushAll hm sub children) m) := by
  induction subs generalizing m with
  | nil => exact grows_refl m
  | cons s subs ih =>
    simp only [List.foldl_cons]
    exact grows_trans (grows_amapPushAll m s children) (ih _)

theorem keysExt_subsFold (subs : List Nat) (children : List Int) (m : AMap) :
    KeysExt m (subs.foldl (fun hm sub => amapPushAll hm sub children) m) := by
  induction subs generalizing m with
  | nil => exact keysExt_refl m
  | cons s subs ih =>
    simp only [List.foldl_cons]
    exact keysExt_trans (keysExt_amapPushAll m s children) (ih _)

theorem grows_catFold (objects : List (Option ObjectM)) (n : Nat) (m : AMap) :
    Grows m (catFold objects n m) := by
  induction objects generalizing m with
  | nil => exact grows_refl m
  | cons o objects ih =>
    unfold catFold
    simp only [List.foldl_cons]
    cases o with
    | none => exact ih m
    | some obj => exact grows_trans (grows_subsFold _ _ m) (ih _)

theorem keysExt_catFold (objects : List (Option ObjectM)) (n : Nat) (m : AMap) :
    KeysExt m (catFold objects n m) := by
  induction objects generalizing m with
  | nil => exact keysExt_refl m
  | cons o objects ih =>
    unfold catFold
    simp only [List.foldl_cons]
    cases o with
    | none => exact ih m
    | some obj => exact keysExt_trans (keysExt_subsFold _ _ m) (ih _)

theorem mem_keysOf_amapPushAll (m : AMap) (k : Nat) (xs : List Int) :
    k ∈ keysOf (amapPushAll m k xs) := by
  unfold amapPushAll
  have base := mem_keysOf_ensureKey m k
  obtain ⟨e, he⟩ := keysExt_foldl_amapPush xs (fun _ => k) (fun x => x) (ensureKey m k)
  rw [he]
  exact List.mem_append_left _ base

theorem keysExt_mem {m m' : AMap} (h : KeysExt m m') {k : Nat}
    (hk : k ∈ keysOf m) : k ∈ keysOf m' := by
  obtain ⟨e, he⟩ := h
  rw [he]
  exact List.mem_append_left _ hk

theorem subsFold_registers (subs : List Nat) (children : List Int) (m : AMap)
    (T : Nat) (hT : T ∈ subs) :
    (∀ c ∈ children,
      c ∈ entryList (subs.foldl (fun hm sub => amapPushAll hm sub children) m) T) ∧
    T ∈ keysOf (subs.foldl (fun hm sub => amapPushAll hm sub children) m) := by
  induction subs generalizing m with
  | nil => simp at hT
  | cons s subs ih =>
    simp only [List.foldl_cons]
    rcases List.mem_cons.mp hT with h | h
    · subst h
      constructor
      · intro c hc
        refine grows_mem (grows_subsFold subs children _) ?_
        rw [entryList_amapPushAll]
        exact mem_foldl_pushUnique hc _
      · exact keysExt_mem (keysExt_subsFold subs children _) (mem_keysOf_amapPushAll m T children)
    · exact ih _ h

theorem catFold_registers (objects : List (Option ObjectM)) (n : Nat) (m : AMap)
    (p : Nat) (obj : ObjectM) (T : Nat)
    (hobj : objects.get? p = some (some obj))
    (hT : T ∈ (obj.events.get? n).getD []) :
    (∀ c ∈ obj.children, c ∈ entryList (catFold objects n m) T) ∧
    T ∈ keysOf (catFold objects n m) := by
  induction objects generalizing m p with
  | nil => simp at hobj
  | cons o objects ih =>
    unfold catFold
    simp only [List.foldl_cons]
    cases p with
    | zero =>
      simp only [List.get?_cons_zero] at hobj
      cases hobj
      have hreg := subsFold_registers ((obj.events.get? n).getD []) obj.children m T hT
      exact ⟨fun c hc => grows_mem (grows_catFold objects n _) (hreg.1 c hc),
        keysExt_mem (keysExt_catFold objects n _) hreg.2⟩
    | succ p =>
      simp only [List.get?_cons_succ] at hobj
      cases o with
      | none => exact ih _ p hobj
      | some o' => exact ih _ p hobj
theorem fillPass1_get? (objects : List (Option ObjectM)) :
    ∀ (holders : List AMap) (n : Nat) (m : AMap),
    (∀ obj? ∈ objects, ∀ obj, obj? = some obj → obj.events.length = holders.length) →
    holders.get? n = some m →
    (fillPass1 holders objects).get? n = some (catFold objects n m) := by
  induction objects with
  | nil =>
    intro holders n m _ h
    unfold fillPass1 catFold
    simpa using h
  | cons o objects ih =>
    intro holders n m hev hget
    cases o with
    | none =>
      have hstep : fillPass1 holders (none :: objects) = fillPass1 holders objects := by
        unfold fillPass1
        rw [List.foldl_cons]
      have hcat : catFold (none :: objects) n m = catFold objects n m := by
        unfold catFold
        rw [List.foldl_cons]
      rw [hstep, hcat]
      exact ih holders n m
        (fun obj? hmem obj heq => hev obj? (List.mem_cons_of_mem _ hmem) obj heq) hget
    | some obj =>
      have hstep : fillPass1 holders (some obj :: objects) =
          fillPass1 ((holders.zip obj.events).map fun he =>
            he.2.foldl (fun hm sub => amapPushAll hm sub obj.children) he.1) objects := by
        unfold fillPass1
        rw [List.foldl_cons]
      have hlen : obj.events.length = holders.length :=
        hev (some obj) (List.mem_cons_self _ _) obj rfl
      have hnlt : n < holders.length := by
        by_contra hge
        rw [List.get?_eq_none.mpr (le_of_not_lt hge)] at hget
        simp at hget
      have hev' : obj.events.get? n = some ((obj.events.get? n).getD []) := by
        have : n < obj.events.length := hlen ▸ hnlt
        rw [List.get?_eq_get this]
        rfl
      have hzip : ((holders.zip obj.events).map fun he =>
          he.2.foldl (fun hm sub => amapPushAll hm sub obj.children) he.1).get? n =
          some (((obj.events.get? n).getD []).foldl
            (fun hm sub => amapPushAll hm sub obj.children) m) := by
        rw [List.get?_map]
        rw [show (holders.zip obj.events).get? n = some (m, (obj.events.get? n).getD []) by
          rw [List.get?_zip_eq_some]
          exact ⟨hget, hev'⟩]
        rfl
      have hlen' : ∀ obj? ∈ objects, ∀ obj2, obj? = some obj2 →
          obj2.events.length = ((holders.zip obj.events).map fun he =>
            he.2.foldl (fun hm sub => amapPushAll hm sub obj.children) he.1).length := by
        intro obj? hmem obj2 heq
        rw [List.length_map, List.length_zip, hlen, Nat.min_self]
        exact hlen ▸ hev obj? (List.mem_cons_of_mem _ hmem) obj2 heq
      have hcat : catFold (some obj :: objects) n m =
          catFold objects n (((obj.events.get? n).getD []).foldl
            (fun hm sub => amapPushAll hm sub obj.children) m) := by
        unfold catFold
        rw [List.foldl_cons]
      rw [hstep, hcat]
      exact ih _ n _ hlen' hzip
/-- C3: the collision expansion of `fill_event_holders` is bidirectional.  If
object `H` declares a collision handler with target sub-key `T`, then after
build pass 2 (i.e. on the expanded collision map, before the final
`target-key < holder-key` drop): every descendant of `H` appears in the entry
for key `T`; and when the target object `T` exists, every id registered under
`T` (which includes every descendant of `H`) is registered back under the key
of each descendant of `T`, and each descendant of `T` is registered under the
key of each id registered under `T` — so firing the target against any
descendant of the holder resolves to at least the holders registered under
`T`. -/
theorem collision_expansion_bidirectional
    (holders : List AMap) (objects : List (Option ObjectM))
    (hid : Nat) (H : ObjectM) (T : Nat) (mc : AMap)
    (hev12 : ∀ obj? ∈ objects, ∀ obj, obj? = some obj → obj.events.length = holders.length)
    (hmc : holders.get? evCOLLISION = some mc)
    (hH : objects.get? hid = some (some H))
    (hT : T ∈ (H.events.get? evCOLLISION).getD []) :
    (∀ d ∈ H.children, d ∈ entryList (collisionAfterExpansion holders objects) T) ∧
    (∀ OT : ObjectM, objects.get? T = some (some OT) →
      (∀ a ∈ entryList (collisionAfterPass1 holders objects) T,
        (∀ t' ∈ OT.children,
          t' ∈ entryList (collisionAfterExpansion holders objects) (u32OfI32 a)) ∧
        (∀ t' ∈ OT.children,
          a ∈ entryList (collisionAfterExpansion holders objects) (u32OfI32 t'))) ∧
      (∀ d ∈ H.children, ∀ t' ∈ OT.children,
        d ∈ entryList (collisionAfterExpansion holders objects) (u32OfI32 t'))) := by
  have hm1 : collisionAfterPass1 holders objects = catFold objects evCOLLISION mc := by
    unfold collisionAfterPass1
    rw [fillPass1_get? objects holders evCOLLISION mc hev12 hmc]
    rfl
  have hreg := catFold_registers objects evCOLLISION mc hid H T hH hT
  have hmem : ∀ d ∈ H.children, d ∈ entryList (collisionAfterPass1 holders objects) T := by
    intro d hd
    rw [hm1]
    exact hreg.1 d hd
  have hkeys : T ∈ keysOf (collisionAfterPass1 holders objects) := by
    rw [hm1]
    exact hreg.2
  have hgrow : Grows (collisionAfterPass1 holders objects)
      (collisionAfterExpansion holders objects) := by
    unfold collisionAfterExpansion fillPass2
    exact grows_outerLoop _ _ _ _
  constructor
  · intro d hd
    exact grows_mem hgrow (hmem d hd)
  · intro OT hOT
    obtain ⟨i0, hi0⟩ := List.mem_iff_get?.mp hkeys
    have hi0lt : i0 < (collisionAfterPass1 holders objects).length := by
      have : i0 < (keysOf (collisionAfterPass1 holders objects)).length := by
        by_contra hge
        rw [List.get?_eq_none.mpr (le_of_not_lt hge)] at hi0
        simp at hi0
      simpa [keysOf] using this
    have hfuel : i0 - 0 < outerFuel objects (collisionAfterPass1 holders objects) := by
      unfold outerFuel
      omega
    have hproc := outerLoop_processes objects
      (outerFuel objects (collisionAfterPass1 holders objects))
      (collisionAfterPass1 holders objects) 0 i0 T OT hi0 hOT (Nat.zero_le _) hfuel
    have hproc' : ∀ a ∈ entryList (collisionAfterPass1 holders objects) T,
        (∀ t' ∈ OT.children,
          t' ∈ entryList (collisionAfterExpansion holders objects) (u32OfI32 a)) ∧
        (∀ t' ∈ OT.children,
          a ∈ entryList (collisionAfterExpansion holders objects) (u32OfI32 t')) := by
      intro a ha
      exact hproc a ha
    exact ⟨hproc', fun d hd t' ht' => (hproc' d (hmem d hd)).2 t' ht'⟩
/-- Witness for `collision_expansion_bidirectional` on the concrete two-object
table `objectsW`. -/
theorem collision_expansion_bidirectional_witness :
    (0 : Int) ∈ entryList (collisionAfterExpansion emptyHolders objectsW) 1 ∧
    (0 : Int) ∈ entryList (collisionAfterExpansion emptyHolders objectsW) (u32OfI32 1) := by
  have hev12 : ∀ obj? ∈ objectsW, ∀ obj, obj? = some obj →
      obj.events.length = emptyHolders.length := by
    intro o ho obj heq
    simp only [objectsW, List.mem_cons, List.mem_singleton, List.not_mem_nil, or_false] at ho
    rcases ho with h | h
    · subst h
      injection heq with heq
      subst heq
      decide
    · subst h
      injection heq with heq
      subst heq
      decide
  have h := collision_expansion_bidirectional emptyHolders objectsW 0 objH 1 []
    hev12 rfl rfl (by decide)
  exact ⟨h.1 0 (by decide), (h.2 objT rfl).2 0 (by decide) 1 (by decide)⟩
theorem pushUnique_nodup {l : List Int} (h : l.Nodup) (x : Int) :
    (pushUnique l x).Nodup := by
  unfold pushUnique
  split
  next hc => exact h
  next hc =>
    refine List.Nodup.append h (List.nodup_singleton x) ?_
    intro a ha hax
    rw [List.mem_singleton] at hax
    subst hax
    exact hc (List.elem_eq_true_of_mem ha)

theorem mapNodup_amapUpd {m : AMap} (hm : MapNodup m) (k : Nat)
    {f : List Int → List Int} (hf : ∀ l, l.Nodup → (f l).Nodup) :
    MapNodup (amapUpd m k f) := by
  intro p hp
  unfold amapUpd at hp
  rw [List.mem_map] at hp
  obtain ⟨q, hq, hpq⟩ := hp
  by_cases hk : q.1 = k
  · rw [if_pos hk] at hpq
    rw [← hpq]
    exact hf q.2 (hm q hq)
  · rw [if_neg hk] at hpq
    rw [← hpq]
    exact hm q hq

theorem mapNodup_ensureKey {m : AMap} (hm : MapNodup m) (k : Nat) :
    MapNodup (ensureKey m k) := by
  unfold ensureKey
  split
  · exact hm
  · intro p hp
    rcases List.mem_append.mp hp with h | h
    · exact hm p h
    · rw [List.mem_singleton] at h
      subst h
      exact List.nodup_nil

theorem mapNodup_amapPush {m : AMap} (hm : MapNodup m) (k : Nat) (x : Int) :
    MapNodup (amapPush m k x) :=
  mapNodup_amapUpd (mapNodup_ensureKey hm k) k (fun _ hl => pushUnique_nodup hl x)

theorem mapNodup_foldl_amapPush {m : AMap} (hm : MapNodup m) (xs : List Int)
    (f : Int → Nat) (v : Int → Int) :
    MapNodup (xs.foldl (fun mm x => amapPush mm (f x) (v x)) m) := by
  induction xs generalizing m with
  | nil => exact hm
  | cons x xs ih =>
    simp only [List.foldl_cons]
    exact ih (mapNodup_amapPush hm (f x) (v x))

theorem mapNodup_amapPushAll {m : AMap} (hm : MapNodup m) (k : Nat) (xs : List Int) :
    MapNodup (amapPushAll m k xs) := by
  unfold amapPushAll
  have := mapNodup_ensureKey hm k
  generalize ensureKey m k = m0 at this
  induction xs generalizing m0 with
  | nil => exact this
  | cons x xs ih =>
    simp only [List.foldl_cons]
    exact ih _ (mapNodup_amapPush this k x)

theorem mapNodup_innerBody {m : AMap} (hm : MapNodup m) (children : List Int)
    (collider : Int) : MapNodup (innerBody children m collider) := by
  unfold innerBody
  exact mapNodup_foldl_amapPush (mapNodup_amapPushAll hm _ children) children _ _

theorem mapNodup_innerLoop {m : AMap} (hm : MapNodup m) (children : List Int)
    (key fuel j : Nat) : MapNodup (innerLoop children key fuel m j) := by
  induction fuel generalizing m j with
  | zero => exact hm
  | succ fuel ih =>
    unfold innerLoop
    split
    · exact hm
    · exact ih (mapNodup_innerBody hm children _) _

theorem mapNodup_outerLoop {m : AMap} (hm : MapNodup m)
    (objects : List (Option ObjectM)) (fuel i : Nat) :
    MapNodup (outerLoop objects fuel m i) := by
  induction fuel generalizing m i with
  | zero => exact hm
  | succ fuel ih =>
    unfold outerLoop
    split
    · exact hm
    · split
      · exact ih (mapNodup_innerLoop hm _ _ _ _) _
      · exact ih hm _

theorem mapNodup_subsFold {m : AMap} (hm : MapNodup m) (subs : List Nat)
    (children : List Int) :
    MapNodup (subs.foldl (fun hm2 sub => amapPushAll hm2 sub children) m) := by
  induction subs generalizing m with
  | nil => exact hm
  | cons s subs ih =>
    simp only [List.foldl_cons]
    exact ih (mapNodup_amapPushAll hm s children)

theorem mapNodup_fillPass1 (objects : List (Option ObjectM)) :
    ∀ (holders : List AMap), (∀ mp ∈ holders, MapNodup mp) →
    ∀ mp ∈ fillPass1 holders objects, MapNodup mp := by
  induction objects with
  | nil =>
    intro holders h mp hmp
    exact h mp hmp
  | cons o objects ih =>
    intro holders h mp hmp
    cases o with
    | none =>
      have hstep : fillPass1 holders (none :: objects) = fillPass1 holders objects := by
        unfold fillPass1
        rw [List.foldl_cons]
      rw [hstep] at hmp
      exact ih holders h mp hmp
    | some obj =>
      have hstep : fillPass1 holders (some obj :: objects) =
          fillPass1 ((holders.zip obj.events).map fun he =>
            he.2.foldl (fun hm sub => amapPushAll hm sub obj.children) he.1) objects := by
        unfold fillPass1
        rw [List.foldl_cons]
      rw [hstep] at hmp
      refine ih _ ?_ mp hmp
      intro mp' hmp'
      rw [List.mem_map] at hmp'
      obtain ⟨he, hhe, hmpe⟩ := hmp'
      rw [← hmpe]
      exact mapNodup_subsFold (h he.1 (List.mem_zip hhe).1) he.2 obj.children
theorem i32OfU32_small {n : Nat} (h : n < 2 ^ 31) : i32OfU32 n = (n : Int) := by
  unfold i32OfU32
  have hlt : n < 2 ^ 32 := lt_trans h (by norm_num)
  rw [Nat.mod_eq_of_lt hlt, if_pos h]

theorem fillPass1_length (objects : List (Option ObjectM)) :
    ∀ (holders : List AMap),
    (∀ obj? ∈ objects, ∀ obj, obj? = some obj → obj.events.length = holders.length) →
    (fillPass1 holders objects).length = holders.length := by
  induction objects with
  | nil =>
    intro holders _
    rfl
  | cons o objects ih =>
    intro holders hev
    cases o with
    | none =>
      have hstep : fillPass1 holders (none :: objects) = fillPass1 holders objects := by
        unfold fillPass1
        rw [List.foldl_cons]
      rw [hstep]
      exact ih holders (fun o ho obj heq => hev o (List.mem_cons_of_mem _ ho) obj heq)
    | some obj =>
      have hlen : obj.events.length = holders.length :=
        hev (some obj) (List.mem_cons_self _ _) obj rfl
      have hstep : fillPass1 holders (some obj :: objects) =
          fillPass1 ((holders.zip obj.events).map fun he =>
            he.2.foldl (fun hm sub => amapPushAll hm sub obj.children) he.1) objects := by
        unfold fillPass1
        rw [List.foldl_cons]
      have hlen2 : ((holders.zip obj.events).map fun he =>
          he.2.foldl (fun hm sub => amapPushAll hm sub obj.children) he.1).length =
          holders.length := by
        rw [List.length_map, List.length_zip, hlen, Nat.min_self]
      rw [hstep]
      rw [ih _ ?_, hlen2]
      intro o ho obj2 heq
      rw [hlen2]
      exact hev o (List.mem_cons_of_mem _ ho) obj2 heq

/-- C4: after `fill_event_holders` on cleared holders, every event holder
list is sorted ascending and duplicate-free; and every entry of the collision
map is nonempty and (for any sub-key in `i32` range, which every real object
id is) contains only ids at least the sub-key. -/
theorem event_holders_invariants (objects : List (Option ObjectM))
    (hev12 : ∀ obj? ∈ objects, ∀ obj, obj? = some obj → obj.events.length = 12) :
    (∀ mp ∈ fill_event_holders emptyHolders objects, ∀ p ∈ mp,
      p.2.Sorted (· ≤ ·) ∧ p.2.Nodup) ∧
    (∀ p ∈ ((fill_event_holders emptyHolders objects).get? evCOLLISION).getD [],
      (p.1 < 2 ^ 31 → ∀ x ∈ p.2, (p.1 : Int) ≤ x) ∧ p.2 ≠ []) := by
  have hempty : ∀ mp ∈ emptyHolders, MapNodup mp := by
    intro mp hmp
    unfold emptyHolders at hmp
    rw [List.eq_of_mem_replicate hmp]
    intro p hp
    simp at hp
  have hnodup_hs : ∀ mp ∈ fillPass1 emptyHolders objects, MapNodup mp :=
    mapNodup_fillPass1 objects emptyHolders hempty
  have hnodup_c : MapNodup (((fillPass1 emptyHolders objects).get? evCOLLISION).getD []) := by
    cases h4 : (fillPass1 emptyHolders objects).get? evCOLLISION with
    | none =>
      intro p hp
      simp at hp
    | some mp => exact hnodup_hs mp (List.get?_mem h4)
  have hnodup_p2 : MapNodup (fillPass2 objects
      (((fillPass1 emptyHolders objects).get? evCOLLISION).getD [])) := by
    unfold fillPass2
    exact mapNodup_outerLoop hnodup_c objects _ 0
  have hnodup_X : MapNodup (dropEmptyEntries (retainGE (fillPass2 objects
      (((fillPass1 emptyHolders objects).get? evCOLLISION).getD [])))) := by
    intro p hp
    unfold dropEmptyEntries at hp
    have hpr := List.mem_of_mem_filter hp
    unfold retainGE at hpr
    rw [List.mem_map] at hpr
    obtain ⟨q, hq, hpq⟩ := hpr
    rw [← hpq]
    exact (hnodup_p2 q hq).filter _
  have hresult : fill_event_holders emptyHolders objects =
      ((fillPass1 emptyHolders objects).set evCOLLISION
        (dropEmptyEntries (retainGE (fillPass2 objects
          (((fillPass1 emptyHolders objects).get? evCOLLISION).getD []))))).map
        sortHolders := rfl
  constructor
  · intro mp hmp p hp
    rw [hresult, List.mem_map] at hmp
    obtain ⟨mp', hmp', hmpeq⟩ := hmp
    have hnd : MapNodup mp' := by
      rcases List.mem_or_eq_of_mem_set hmp' with h | h
      · exact hnodup_hs mp' h
      · rw [h]
        exact hnodup_X
    rw [← hmpeq] at hp
    unfold sortHolders at hp
    rw [List.mem_map] at hp
    obtain ⟨q, hq, hpq⟩ := hp
    have hqmem : q ∈ mp' := (List.perm_insertionSort _ mp').mem_iff.mp hq
    constructor
    · rw [← hpq]
      exact List.sorted_insertionSort (· ≤ ·) q.2
    · rw [← hpq]
      exact (List.perm_insertionSort (· ≤ ·) q.2).nodup_iff.mpr (hnd q hqmem)
  · intro p hp
    have hlen12 : (fillPass1 emptyHolders objects).length = 12 := by
      have := fillPass1_length objects emptyHolders ?_
      · simpa [emptyHolders] using this
      · intro o ho obj heq
        have := hev12 o ho obj heq
        simpa [emptyHolders] using this
    have hget : (fill_event_holders emptyHolders objects).get? evCOLLISION =
        some (sortHolders (dropEmptyEntries (retainGE (fillPass2 objects
          (((fillPass1 emptyHolders objects).get? evCOLLISION).getD []))))) := by
      rw [hresult, List.get?_map, List.get?_set_eq_of_lt]
      · rfl
      · rw [hlen12]
        norm_num [evCOLLISION]
    rw [hget] at hp
    simp only [Option.getD_some] at hp
    unfold sortHolders at hp
    rw [List.mem_map] at hp
    obtain ⟨q, hq, hpq⟩ := hp
    have hqmem : q ∈ dropEmptyEntries (retainGE (fillPass2 objects
        (((fillPass1 emptyHolders objects).get? evCOLLISION).getD []))) :=
      (List.perm_insertionSort _ _).mem_iff.mp hq
    have hqne : q.2 ≠ [] := by
      unfold dropEmptyEntries at hqmem
      have := List.of_mem_filter hqmem
      simpa [List.isEmpty_iff] using this
    have hqge : ∀ x ∈ q.2, x ≥ i32OfU32 q.1 := by
      have hqr := List.mem_of_mem_filter hqmem
      unfold retainGE at hqr
      rw [List.mem_map] at hqr
      obtain ⟨r, _, hrq⟩ := hqr
      intro x hx
      have h1 : q.1 = r.1 := by
        rw [← hrq]
      rw [← hrq] at hx
      have hxf := List.of_mem_filter hx
      rw [h1]
      simpa using hxf
    constructor
    · intro hp1 x hx
      have hxq : x ∈ q.2 := by
        rw [← hpq] at hx
        exact (List.perm_insertionSort (· ≤ ·) q.2).mem_iff.mp hx
      have := hqge x hxq
      rw [← hpq] at hp1 ⊢
      simp only at hp1 ⊢
      rwa [i32OfU32_small hp1] at this
    · rw [← hpq]
      simp only [ne_eq]
      intro hc
      have := (List.perm_insertionSort (· ≤ ·) q.2).length_eq
      rw [hc] at this
      simp only [List.length_nil] at this
      exact hqne (List.length_eq_zero.mp this.symm)
/-- Witness for `event_holders_invariants` on the concrete object table
`objectsW` (whose final collision map is the single entry `(0, [1])`). -/
theorem event_holders_invariants_witness :
    ([(1 : Int)]).Sorted (· ≤ ·) ∧ ([(1 : Int)]).Nodup ∧
    (((0 : Nat) : Int) ≤ 1 ∧ ([(1 : Int)]) ≠ []) := by
  have hev12 : ∀ obj? ∈ objectsW, ∀ obj, obj? = some obj → obj.events.length = 12 := by
    intro o ho obj heq
    simp only [objectsW, List.mem_cons, List.mem_singleton, List.not_mem_nil, or_false] at ho
    rcases ho with h | h
    · subst h
      injection heq with heq
      subst heq
      decide
    · subst h
      injection heq with heq
      subst heq
      decide
  have h := event_holders_invariants objectsW hev12
  have h1 := h.1 [((0 : Nat), [(1 : Int)])] (by decide) ((0 : Nat), [(1 : Int)]) (by decide)
  have h2 := h.2 ((0 : Nat), [(1 : Int)]) (by decide)
  exact ⟨h1.1, h1.2, h2.1 (by decide) 1 (by decide), h2.2⟩
theorem u32OfI32_lt (v : Int) : u32OfI32 v < 2 ^ 32 := by
  unfold u32OfI32
  have h1 : (0 : Int) ≤ v % 2 ^ 32 := Int.emod_nonneg v (by norm_num)
  have h2 : v % 2 ^ 32 < 2 ^ 32 := Int.emod_lt_of_pos v (by norm_num)
  omega

theorem i32OfU32_u32OfI32 {v : Int} (h1 : -(2 ^ 31) ≤ v) (h2 : v < 2 ^ 31) :
    i32OfU32 (u32OfI32 v) = v := by
  unfold i32OfU32 u32OfI32
  have ha : (0 : Int) ≤ v % 2 ^ 32 := Int.emod_nonneg v (by norm_num)
  have hb : v % 2 ^ 32 < 2 ^ 32 := Int.emod_lt_of_pos v (by norm_num)
  have hc : v % 2 ^ 32 = v ∨ v % 2 ^ 32 = v + 2 ^ 32 := by
    rcases le_or_lt 0 v with h | h
    · left
      exact Int.emod_eq_of_lt h (by omega)
    · right
      have : (v + 2 ^ 32) % 2 ^ 32 = v % 2 ^ 32 := by
        omega
      rw [← this]
      exact Int.emod_eq_of_lt (by omega) (by omega)
  omega

theorem length_w32 (v : Nat) : (w32 v).length = 4 := rfl

theorem rdU32_spec {bs : List Nat} {pos : Nat} {v : Nat} {rest : List Nat}
    (hv : v < 2 ^ 32) (h : bs.drop pos = w32 v ++ rest) (hpos : pos ≤ bs.length) :
    rdU32 bs pos = .ok (v, pos + 4) ∧ bs.drop (pos + 4) = rest ∧ pos + 4 ≤ bs.length := by
  have hlen : bs.length - pos = 4 + rest.length := by
    have := congrArg List.length h
    simpa [List.length_drop, length_w32] using this
  have hdrop4 : bs.drop (pos + 4) = rest := by
    have : bs.drop (pos + 4) = (bs.drop pos).drop 4 := by
      rw [List.drop_drop]
    rw [this, h]
    have : (w32 v).length = 4 := length_w32 v
    rw [← this, List.drop_left]
  refine ⟨?_, hdrop4, by omega⟩
  unfold rdU32
  rw [h]
  have htake : (w32 v ++ rest).take 4 = w32 v := by
    have : (w32 v).length = 4 := length_w32 v
    rw [← this, List.take_left]
  rw [htake]
  unfold w32
  simp only []
  rw [Nat.mod_eq_of_lt hv]
  congr 2
  omega

theorem rdI32_spec {bs : List Nat} {pos : Nat} {v : Int} {rest : List Nat}
    (h1 : -(2 ^ 31) ≤ v) (h2 : v < 2 ^ 31) (h : bs.drop pos = wI32 v ++ rest)
    (hpos : pos ≤ bs.length) :
    rdI32 bs pos = .ok (v, pos + 4) ∧ bs.drop (pos + 4) = rest ∧ pos + 4 ≤ bs.length := by
  obtain ⟨hok, hdrop, hle⟩ := rdU32_spec (u32OfI32_lt v) h hpos
  refine ⟨?_, hdrop, hle⟩
  unfold rdI32
  rw [hok]
  simp only []
  rw [i32OfU32_u32OfI32 h1 h2]

theorem rdVersion_spec {bs : List Nat} {pos : Nat} {rest : List Nat} (strict : Bool)
    (h : bs.drop pos = w32 800 ++ rest) (hpos : pos ≤ bs.length) :
    rdVersion bs strict 800 pos = .ok (pos + 4) ∧ bs.drop (pos + 4) = rest ∧
      pos + 4 ≤ bs.length := by
  obtain ⟨hok, hdrop, hle⟩ := rdU32_spec (by norm_num) h hpos
  refine ⟨?_, hdrop, hle⟩
  unfold rdVersion
  cases strict with
  | true =>
    rw [if_pos rfl, hok]
    simp only []
    rw [if_pos trivial]
  | false => rw [if_neg (by simp)]

theorem rdBytes_spec {bs : List Nat} {pos : Nat} {chunk rest : List Nat}
    (h : bs.drop pos = chunk ++ rest) (hpos : pos ≤ bs.length) :
    rdBytes bs pos chunk.length = .ok (chunk, pos + chunk.length) ∧
      bs.drop (pos + chunk.length) = rest ∧ pos + chunk.length ≤ bs.length := by
  have hlen : bs.length - pos = chunk.length + rest.length := by
    have := congrArg List.length h
    simpa [List.length_drop] using this
  have hdrop : bs.drop (pos + chunk.length) = rest := by
    have h2 : bs.drop (pos + chunk.length) = (bs.drop pos).drop chunk.length := by
      rw [List.drop_drop]
    rw [h2, h, List.drop_left]
  refine ⟨?_, hdrop, by omega⟩
  unfold rdBytes
  by_cases hz : chunk.length = 0
  · rw [if_pos hz]
    rw [List.length_eq_zero.mp hz] at *
    simp [hz]
  · rw [if_neg hz, if_pos (by omega), h, List.take_left]

theorem rdPasString_spec {bs : List Nat} {pos : Nat} {name rest : List Nat}
    (hlen : name.length < 2 ^ 32)
    (h : bs.drop pos = writePasString name ++ rest) (hpos : pos ≤ bs.length) :
    rdPasString bs pos = .ok (name, pos + 4 + name.length) ∧
      bs.drop (pos + 4 + name.length) = rest ∧ pos + 4 + name.length ≤ bs.length := by
  unfold writePasString at h
  rw [List.append_assoc] at h
  obtain ⟨hok, hdrop, hle⟩ := rdU32_spec hlen h hpos
  obtain ⟨hok2, hdrop2, hle2⟩ := rdBytes_spec hdrop hle
  refine ⟨?_, hdrop2, hle2⟩
  unfold rdPasString
  rw [hok]
  simp only []
  rw [hok2]

theorem sliceGet_spec {bs : List Nat} {pos : Nat} {chunk rest : List Nat}
    (h : bs.drop pos = chunk ++ rest) (hpos : pos ≤ bs.length) :
    sliceGet bs pos chunk.length = some chunk ∧
      bs.drop (pos + chunk.length) = rest ∧ pos + chunk.length ≤ bs.length := by
  have hlen : bs.length - pos = chunk.length + rest.length := by
    have := congrArg List.length h
    simpa [List.length_drop] using this
  have hdrop : bs.drop (pos + chunk.length) = rest := by
    have h2 : bs.drop (pos + chunk.length) = (bs.drop pos).drop chunk.length := by
      rw [List.drop_drop]
    rw [h2, h, List.drop_left]
  refine ⟨?_, hdrop, by omega⟩
  unfold sliceGet
  rw [if_pos (by omega), h, List.take_left]
theorem bytesToMask_flatMap (data : List Bool) :
    bytesToMask (data.flatMap fun b => w32 (if b then 1 else 0)) = data := by
  induction data with
  | nil => rfl
  | cons b rest ih =>
    cases b <;> simp only [List.flatMap_cons] <;>
      first
      | (show bytesToMask (0 :: 0 :: 0 :: 0 ::
            (rest.flatMap fun b => w32 (if b then 1 else 0))) = false :: rest
         unfold bytesToMask
         rw [ih]
         simp)
      | (show bytesToMask (1 :: 0 :: 0 :: 0 ::
            (rest.flatMap fun b => w32 (if b then 1 else 0))) = true :: rest
         unfold bytesToMask
         rw [ih]
         simp)

theorem length_maskBytes (data : List Bool) :
    (data.flatMap fun b => w32 (if b then 1 else 0)).length = 4 * data.length := by
  induction data with
  | nil => rfl
  | cons b rest ih =>
    simp only [List.flatMap_cons, List.length_append, ih]
    cases b <;> simp [length_w32] <;> omega

theorem rdCollision_spec {bs : List Nat} {pos : Nat} {c : CollisionMapD}
    {rest : List Nat} (strict : Bool)
    (hwf : c.bbox_width < 2 ^ 32 ∧ c.bbox_height < 2 ^ 32 ∧ c.bbox_left < 2 ^ 32 ∧
      c.bbox_right < 2 ^ 32 ∧ c.bbox_bottom < 2 ^ 32 ∧ c.bbox_top < 2 ^ 32 ∧
      c.data.length = c.bbox_width * c.bbox_height)
    (h : bs.drop pos = w32 800 ++ w32 c.bbox_width ++ w32 c.bbox_height ++
      w32 c.bbox_left ++ w32 c.bbox_right ++ w32 c.bbox_bottom ++ w32 c.bbox_top ++
      (c.data.flatMap fun b => w32 (if b then 1 else 0)) ++ rest)
    (hpos : pos ≤ bs.length) :
    ∃ pos', rdCollision bs strict pos = .ok (c, pos') ∧ bs.drop pos' = rest ∧
      pos' ≤ bs.length := by
  obtain ⟨bw, bh, bl, br, bb, bt, data⟩ := c
  simp only at hwf h
  obtain ⟨h1, h2, h3, h4, h5, h6, h7⟩ := hwf
  simp only [List.append_assoc] at h
  obtain ⟨hv, hd, hl⟩ := rdVersion_spec strict h hpos
  obtain ⟨hw, hd, hl⟩ := rdU32_spec h1 hd hl
  obtain ⟨hh, hd, hl⟩ := rdU32_spec h2 hd hl
  obtain ⟨hbl, hd, hl⟩ := rdU32_spec h3 hd hl
  obtain ⟨hbr, hd, hl⟩ := rdU32_spec h4 hd hl
  obtain ⟨hbb, hd, hl⟩ := rdU32_spec h5 hd hl
  obtain ⟨hbt, hd, hl⟩ := rdU32_spec h6 hd hl
  obtain ⟨hsg, hd, hl⟩ := sliceGet_spec hd hl
  have hchunk : (data.flatMap fun b => w32 (if b then 1 else 0)).length = 4 * (bw * bh) := by
    rw [length_maskBytes, h7]
  refine ⟨_, ?_, hd, hl⟩
  unfold rdCollision
  rw [hv]
  simp only []
  rw [hw]
  simp only []
  rw [hh]
  simp only []
  rw [hbl]
  simp only []
  rw [hbr]
  simp only []
  rw [hbb]
  simp only []
  rw [hbt]
  simp only []
  rw [← hchunk, hsg]
  simp only []
  rw [bytesToMask_flatMap]
theorem rdFrames_spec {bs : List Nat} (strict : Bool) :
    ∀ (frames : List FrameD) (pos : Nat) (rest : List Nat),
    (∀ fr ∈ frames, fr.width < 2 ^ 32 ∧ fr.height < 2 ^ 32 ∧
      fr.data.length = fr.width * fr.height * 4 ∧ fr.data.length < 2 ^ 32) →
    bs.drop pos = (frames.flatMap fun fr =>
      w32 800 ++ w32 fr.width ++ w32 fr.height ++ w32 fr.data.length ++ fr.data) ++ rest →
    pos ≤ bs.length →
    ∃ pos', rdFrames bs strict frames.length pos = .ok (frames, pos') ∧
      bs.drop pos' = rest ∧ pos' ≤ bs.length := by
  intro frames
  induction frames with
  | nil =>
    intro pos rest _ h hpos
    refine ⟨pos, rfl, ?_, hpos⟩
    simpa using h
  | cons fr frames ih =>
    intro pos rest hwf h hpos
    obtain ⟨fw, fh, fdata⟩ := fr
    have hwf0 := hwf _ (List.mem_cons_self _ _)
    simp only at hwf0
    obtain ⟨h1, h2, h3, h4⟩ := hwf0
    simp only [List.flatMap_cons, List.append_assoc] at h
    obtain ⟨hv, hd, hl⟩ := rdVersion_spec strict h hpos
    obtain ⟨hw, hd, hl⟩ := rdU32_spec h1 hd hl
    obtain ⟨hh, hd, hl⟩ := rdU32_spec h2 hd hl
    obtain ⟨hlen, hd, hl⟩ := rdU32_spec h4 hd hl
    obtain ⟨hsg, hd, hl⟩ := sliceGet_spec hd hl
    obtain ⟨pos', hrec, hd', hl'⟩ := ih _ _ (fun fr hfr => hwf fr (List.mem_cons_of_mem _ hfr))
      hd hl
    refine ⟨pos', ?_, hd', hl'⟩
    show rdFrames bs strict (frames.length + 1) pos = _
    unfold rdFrames
    rw [hv]
    simp only []
    rw [hw]
    simp only []
    rw [hh]
    simp only []
    rw [hlen]
    simp only []
    rw [if_neg (by omega)]
    rw [hsg]
    simp only []
    rw [hrec]

theorem rdColliders_spec {bs : List Nat} (strict : Bool) :
    ∀ (colliders : List CollisionMapD) (pos : Nat) (rest : List Nat),
    (∀ c ∈ colliders, c.bbox_width < 2 ^ 32 ∧ c.bbox_height < 2 ^ 32 ∧
      c.bbox_left < 2 ^ 32 ∧ c.bbox_right < 2 ^ 32 ∧ c.bbox_bottom < 2 ^ 32 ∧
      c.bbox_top < 2 ^ 32 ∧ c.data.length = c.bbox_width * c.bbox_height) →
    bs.drop pos = (colliders.flatMap fun c =>
      w32 800 ++ w32 c.bbox_width ++ w32 c.bbox_height ++ w32 c.bbox_left ++
      w32 c.bbox_right ++ w32 c.bbox_bottom ++ w32 c.bbox_top ++
      (c.data.flatMap fun b => w32 (if b then 1 else 0))) ++ rest →
    pos ≤ bs.length →
    ∃ pos', rdColliders bs strict colliders.length pos = .ok (colliders, pos') ∧
      bs.drop pos' = rest ∧ pos' ≤ bs.length := by
  intro colliders
  induction colliders with
  | nil =>
    intro pos rest _ h hpos
    refine ⟨pos, rfl, ?_, hpos⟩
    simpa using h
  | cons c cs ih =>
    intro pos rest hwf h hpos
    simp only [List.flatMap_cons, List.append_assoc] at h
    have hcs : bs.drop pos = w32 800 ++ w32 c.bbox_width ++ w32 c.bbox_height ++
        w32 c.bbox_left ++ w32 c.bbox_right ++ w32 c.bbox_bottom ++ w32 c.bbox_top ++
        (c.data.flatMap fun b => w32 (if b then 1 else 0)) ++
        ((cs.flatMap fun c =>
          w32 800 ++ w32 c.bbox_width ++ w32 c.bbox_height ++ w32 c.bbox_left ++
          w32 c.bbox_right ++ w32 c.bbox_bottom ++ w32 c.bbox_top ++
          (c.data.flatMap fun b => w32 (if b then 1 else 0))) ++ rest) := by
      rw [h]
      simp only [List.append_assoc]
    obtain ⟨pos1, hc, hd, hl⟩ := rdCollision_spec strict
      (hwf c (List.mem_cons_self _ _)) hcs hpos
    obtain ⟨pos', hrec, hd', hl'⟩ := ih _ _ (fun c hc2 => hwf c (List.mem_cons_of_mem _ hc2))
      hd hl
    refine ⟨pos', ?_, hd', hl'⟩
    show rdColliders bs strict (cs.length + 1) pos = _
    unfold rdColliders
    rw [hc]
    simp only []
    rw [hrec]
/-- C10 (amended): sprite serialization round-trips for well-formed sprites:
at least one frame, collider count consistent with `per_frame_colliders`,
frame data lengths matching `width * height * 4`, collider mask lengths
matching `bbox_width * bbox_height`, and all fields within `u32`/`i32`
range.  Deserializing the serialized bytes, strictly or not, returns a sprite
equal to the original in every field. -/
theorem sprite_roundtrip (s : SpriteD) (hwf : SpriteWFD s) (strict : Bool) :
    deserializeSprite (serializeSprite s) strict = .ok s := by
  obtain ⟨name, ox, oy, frames, colliders, pfc⟩ := s
  obtain ⟨hname, hox1, hox2, hoy1, hoy2, hfne, hflen, hfwf, hcols, hcwf⟩ := hwf
  simp only at hname hox1 hox2 hoy1 hoy2 hfne hflen hfwf hcols hcwf
  have hser : serializeSprite ⟨name, ox, oy, frames, colliders, pfc⟩ =
      writePasString name ++ (w32 800 ++ (wI32 ox ++ (wI32 oy ++
      (w32 frames.length ++
        ((frames.flatMap fun fr =>
          w32 800 ++ w32 fr.width ++ w32 fr.height ++ w32 fr.data.length ++ fr.data) ++
        (w32 (if pfc then 1 else 0) ++
        (colliders.flatMap fun c =>
          w32 800 ++ w32 c.bbox_width ++ w32 c.bbox_height ++ w32 c.bbox_left ++
          w32 c.bbox_right ++ w32 c.bbox_bottom ++ w32 c.bbox_top ++
          (c.data.flatMap fun b => w32 (if b then 1 else 0)))))))))  := by
    unfold serializeSprite
    simp only []
    rw [if_pos (by simpa [List.length_eq_zero] using hfne)]
    simp only [List.append_assoc]
  set bs := serializeSprite ⟨name, ox, oy, frames, colliders, pfc⟩ with hbs
  have h0 : bs.drop 0 = writePasString name ++ (w32 800 ++ (wI32 ox ++ (wI32 oy ++
      (w32 frames.length ++
        ((frames.flatMap fun fr =>
          w32 800 ++ w32 fr.width ++ w32 fr.height ++ w32 fr.data.length ++ fr.data) ++
        (w32 (if pfc then 1 else 0) ++
        (colliders.flatMap fun c =>
          w32 800 ++ w32 c.bbox_width ++ w32 c.bbox_height ++ w32 c.bbox_left ++
          w32 c.bbox_right ++ w32 c.bbox_bottom ++ w32 c.bbox_top ++
          (c.data.flatMap fun b => w32 (if b then 1 else 0))))))))) := by
    rw [List.drop_zero]
    exact hser
  obtain ⟨hps, hd, hl⟩ := rdPasString_spec hname h0 (Nat.zero_le _)
  obtain ⟨hv, hd, hl⟩ := rdVersion_spec strict hd hl
  obtain ⟨hx, hd, hl⟩ := rdI32_spec hox1 hox2 hd hl
  obtain ⟨hy, hd, hl⟩ := rdI32_spec hoy1 hoy2 hd hl
  obtain ⟨hfc, hd, hl⟩ := rdU32_spec hflen hd hl
  obtain ⟨posf, hfr, hd, hl⟩ := rdFrames_spec strict frames _ _ hfwf hd hl
  have hpfclt : (if pfc then 1 else 0) < 2 ^ 32 := by
    cases pfc <;> norm_num
  obtain ⟨hpf, hd, hl⟩ := rdU32_spec hpfclt hd hl
  unfold deserializeSprite
  rw [hps]
  simp only []
  rw [hv]
  simp only []
  rw [hx]
  simp only []
  rw [hy]
  simp only []
  rw [hfc]
  simp only []
  rw [if_pos (by simpa [List.length_eq_zero] using hfne)]
  rw [hfr]
  simp only []
  rw [hpf]
  simp only []
  cases pfc with
  | true =>
    rw [if_pos (by norm_num)]
    have hcols2 : colliders.length = frames.length := by simpa using hcols
    have hd2 : bs.drop (posf + 4) = (colliders.flatMap fun c =>
        w32 800 ++ w32 c.bbox_width ++ w32 c.bbox_height ++ w32 c.bbox_left ++
        w32 c.bbox_right ++ w32 c.bbox_bottom ++ w32 c.bbox_top ++
        (c.data.flatMap fun b => w32 (if b then 1 else 0))) ++ [] := by
      rw [List.append_nil]
      exact hd
    obtain ableh := rdColliders_spec strict colliders (posf + 4) [] hcwf hd2 hl
    obtain ⟨posc, hcs, -, -⟩ := ableh
    rw [hcols2] at hcs
    rw [hcs]
  | false =>
    rw [if_neg (by norm_num)]
    have hcols2 : colliders.length = 1 := by simpa using hcols
    obtain ⟨c, hc0⟩ : ∃ c, colliders = [c] := by
      cases colliders with
      | nil => simp at hcols2
      | cons c cs =>
        cases cs with
        | nil => exact ⟨c, rfl⟩
        | cons d ds => simp at hcols2
    subst hc0
    have hd2 : bs.drop (posf + 4) = w32 800 ++ w32 c.bbox_width ++ w32 c.bbox_height ++
        w32 c.bbox_left ++ w32 c.bbox_right ++ w32 c.bbox_bottom ++ w32 c.bbox_top ++
        (c.data.flatMap fun b => w32 (if b then 1 else 0)) ++ [] := by
      rw [List.append_nil]
      simpa using hd
    obtain ⟨posc, hc, -, -⟩ := rdCollision_spec strict (hcwf c (by simp)) hd2 hl
    rw [hc]

/-- C10 counterexample: a sprite meeting the claim's literal hypotheses
(nonempty name not required; collider count consistent with the
`per_frame_colliders` flag; frame pixel data length matching
`width * height * 4`) whose collider mask data length disagrees with
`bbox_width * bbox_height`; serialization followed by deserialization does
not return the original sprite. -/
theorem sprite_roundtrip_cx :
    deserializeSprite (serializeSprite spriteCX) true ≠ Except.ok spriteCX := by
  decide

set_option maxRecDepth 8000 in
theorem sprite_roundtrip_witness :
    SpriteWFD ⟨[65], 1, -1, [⟨1, 1, [9, 9, 9, 9]⟩], [⟨1, 1, 0, 0, 0, 0, [true]⟩], false⟩ ∧
    deserializeSprite
      (serializeSprite ⟨[65], 1, -1, [⟨1, 1, [9, 9, 9, 9]⟩], [⟨1, 1, 0, 0, 0, 0, [true]⟩], false⟩)
      true = Except.ok ⟨[65], 1, -1, [⟨1, 1, [9, 9, 9, 9]⟩], [⟨1, 1, 0, 0, 0, 0, [true]⟩], false⟩ := by
  refine ⟨?_, sprite_roundtrip _ ?_ true⟩ <;>
  · constructor
    · decide
    · refine ⟨by decide, by decide, by decide, by decide, by decide, by decide, ?_, by decide, ?_⟩
      · intro fr hfr
        simp only [List.mem_singleton] at hfr
        subst hfr
        refine ⟨by decide, by decide, by decide, by decide⟩
      · intro c hc
        simp only [List.mem_singleton] at hc
        subst hc
        refine ⟨by decide, by decide, by decide, by decide, by decide, by decide, by decide⟩


/-- One step of `runPhases` on a cons cell. -/
theorem runPhases_cons {σ ε : Type} (chk : Bool)
    (f : FrameSt σ → Except ε (FrameSt σ))
    (rest : List (Bool × (FrameSt σ → Except ε (FrameSt σ)))) (s : FrameSt σ) :
    runPhases ((chk, f) :: rest) s =
      match f s with
      | Except.error e => Except.error e
      | Except.ok s1 =>
        if chk && s1.scene_change.isSome then Except.ok s1
        else runPhases rest s1 := rfl

/-- If a prefix of phases ends in a state with no pending scene change, it
never returned early, so running the concatenation continues with the rest. -/
theorem runPhases_append_none {σ ε : Type}
    (pre rest : List (Bool × (FrameSt σ → Except ε (FrameSt σ))))
    (s s0 : FrameSt σ) (hrun : runPhases pre s = Except.ok s0)
    (hnone : s0.scene_change = none) :
    runPhases (pre ++ rest) s = runPhases rest s0 := by
  induction pre generalizing s with
  | nil =>
    unfold runPhases at hrun
    injection hrun with h
    subst h
    rfl
  | cons p pre ih =>
    obtain ⟨chk, f⟩ := p
    rw [List.cons_append, runPhases_cons]
    rw [runPhases_cons] at hrun
    cases hf : f s with
    | error e =>
      rw [hf] at hrun
      simp only [] at hrun
      exact Except.noConfusion hrun
    | ok s1 =>
      rw [hf] at hrun
      simp only [] at hrun
      simp only []
      by_cases hc : (chk && s1.scene_change.isSome) = true
      · rw [if_pos hc] at hrun
        injection hrun with h
        subst h
        rw [hnone] at hc
        simp at hc
      · rw [if_neg hc] at hrun ⊢
        exact ih _ hrun

/-- C2 counterexample: in `Game::frame` no scene-change check follows the
timeline-advance phase.  With phase bodies that log their phase number, and a
timeline advance (phase 3) that queues a game end, the prefix up to the
timeline advance already has the scene change pending, yet the alarm phase
(number 4) still executes before the next check returns: its number appears
in the final log. -/
theorem frame_scene_change_cx :
    runPhases ((framePhases cxHooks).take 3) (cxHooks.snapshotPrev ⟨none, []⟩)
      = Except.ok ⟨some SceneChangeM.End, [0, 1, 2, 3]⟩ ∧
    frame cxHooks ⟨none, []⟩
      = Except.ok ⟨some SceneChangeM.End, [0, 1, 2, 3, 4]⟩ :=
  ⟨rfl, rfl⟩

/-- C2 (amended): in `Game::frame`, thirteen phases — the begin-step
triggers, the begin-step event, the alarm, held-keyboard, held-mouse,
key-press and key-release events, the step triggers, the step event, the
bound events, the collisions, the end-step triggers and the end-step event —
are each followed by a scene-change check: whenever such a checked phase
completes normally with a scene change pending (the earlier phases having
left none), `frame` returns `Ok` immediately with that state and no later
phase executes.  The timeline-advance and movement phases, and every phase
from the particle update onward, are not followed by a check. -/
theorem frame_scene_change_checks {σ ε : Type} (h : FrameHooks σ ε)
    (s : FrameSt σ)
    (pre : List (Bool × (FrameSt σ → Except ε (FrameSt σ))))
    (f : FrameSt σ → Except ε (FrameSt σ))
    (post : List (Bool × (FrameSt σ → Except ε (FrameSt σ))))
    (s0 s1 : FrameSt σ)
    (hsplit : framePhases h = pre ++ (true, f) :: post)
    (hpre : runPhases pre (h.snapshotPrev s) = Except.ok s0)
    (hnone : s0.scene_change = none)
    (hf : f s0 = Except.ok s1)
    (hsc : s1.scene_change.isSome = true) :
    frame h s = Except.ok s1 := by
  unfold frame
  rw [hsplit, runPhases_append_none pre _ _ _ hpre hnone]
  unfold runPhases
  rw [hf]
  simp only []
  simp [hsc]

theorem frame_scene_change_checks_witness :
    frame whHooks ⟨none, []⟩
      = Except.ok ⟨some SceneChangeM.Restart, [0, 1, 2, 3, 4]⟩ :=
  frame_scene_change_checks whHooks ⟨none, []⟩
    ((framePhases whHooks).take 3) whHooks.run_alarms
    ((framePhases whHooks).drop 4)
    ⟨none, [0, 1, 2, 3]⟩ ⟨some SceneChangeM.Restart, [0, 1, 2, 3, 4]⟩
    rfl rfl rfl rfl rfl


/-- C9 counterexample: with hooks whose game-end events set the `sim` flag
and a close always requested, `run` and `replay` terminate with the flag set,
but `record` — receiving one empty poll, then sampling the close request —
terminates with `Ok` without ever firing the game-end events: the flag is
still false and the captured replay untouched. -/
theorem close_end_events_cx :
    runLoop cxLH 1 0 cxSt = Except.ok (some ⟨none, 0, none, (), [], 30, true⟩) ∧
    replayLoop cxLH ⟨0, 0, []⟩ 1 0 cxSt
      = Except.ok (some ⟨none, 0, none, (), [], 30, true⟩) ∧
    recordLoop cxLH [none] 0 cxSt ⟨0, 0, []⟩ false
      = Except.ok (some (⟨none, 0, none, (), [], 30, false⟩, ⟨0, 0, []⟩)) :=
  ⟨rfl, rfl, rfl⟩

/-- C9 (amended): when a window close is requested at the tick boundary, the
shared loop tail of `run` and `replay` fires the game-end events and halts
with their result; the `record` loop instead breaks with `Ok` immediately,
returning the state after window-event processing with the game-end events
never run. -/
theorem close_shutdown {ι σ ε : Type} (h : LoopHooks ι σ ε) (tick : Nat)
    (st stE : GState ι σ) (msgs : List (Option MessageM)) (rp : ReplayM)
    (dum : Bool)
    (hclose : h.close_requested tick = true)
    (hend : h.run_game_end_events st = Except.ok stE) :
    runTickClose h tick st = Except.ok (Sum.inr stE) ∧
    recordLoop h (none :: msgs) tick st rp dum
      = Except.ok (some (h.window_process_events st, rp)) := by
  constructor
  · unfold runTickClose
    rw [hclose]
    simp only [if_pos]
    rw [hend]
  · unfold recordLoop recordMsg
    simp only []
    rw [hclose]
    simp only [if_pos]

theorem close_shutdown_witness :
    runTickClose cxLH 1 ⟨none, 2, none, (), [], 60, false⟩
      = Except.ok (Sum.inr ⟨none, 2, none, (), [], 60, true⟩) ∧
    recordLoop cxLH [none, some MessageM.Unexpected] 1
        ⟨none, 2, none, (), [], 60, false⟩ ⟨5, 6, []⟩ true
      = Except.ok (some (⟨none, 2, none, (), [], 60, false⟩, ⟨5, 6, []⟩)) :=
  close_shutdown cxLH 1 ⟨none, 2, none, (), [], 60, false⟩
    ⟨none, 2, none, (), [], 60, true⟩ [some MessageM.Unexpected] ⟨5, 6, []⟩
    true rfl rfl

/-- `seedUpd` changes only the seed field. -/
theorem seedUpd_scene {ι σ : Type} (ns : Option Int) (st : GState ι σ) :
    (seedUpd ns st).scene_change = st.scene_change := by
  cases ns <;> rfl

theorem seedUpd_input {ι σ : Type} (ns : Option Int) (st : GState ι σ) :
    (seedUpd ns st).input = st.input := by
  cases ns <;> rfl

theorem seedUpd_room {ι σ : Type} (ns : Option Int) (st : GState ι σ) :
    (seedUpd ns st).room_speed = st.room_speed := by
  cases ns <;> rfl

theorem seedUpd_sim {ι σ : Type} (ns : Option Int) (st : GState ι σ) :
    (seedUpd ns st).sim = st.sim := by
  cases ns <;> rfl

theorem seedUpd_seed {ι σ : Type} (ns : Option Int) (a b : GState ι σ)
    (hs : a.seed = b.seed) : (seedUpd ns a).seed = (seedUpd ns b).seed := by
  cases ns <;> simp [seedUpd, hs]

/-- `recordPreState` on an `Advance` with no input deltas: reseed, save the
previous mouse state, set the mouse position; no inputs recorded. -/
theorem recordPreState_nil {ι σ ε : Type} (h : LoopHooks ι σ ε)
    (ml : Int × Int) (ns : Option Int) (st0 : GState ι σ) :
    recordPreState h [] [] ml ns st0 =
      (mouseSet h ml.1 ml.2 (preInput h (seedUpd ns st0)), []) :=
  rfl

/-- `applyFrame` for a frame with no recorded inputs and no time override. -/
theorem applyFrame_simple {ι σ ε : Type} (h : LoopHooks ι σ ε)
    (ns : Option Int) (x y : Int) (E : List Nat) (tr : Nat)
    (sb : GState ι σ) :
    applyFrame h ⟨[], ns, none, x, y, E, tr⟩ sb =
      mouseSet h x y (seedUpd ns { sb with stored_events := E }) :=
  rfl

/-- `replayPreState` at the index of a frame appended to the replay. -/
theorem replayPreState_concat {ι σ ε : Type} (h : LoopHooks ι σ ε)
    (pre : List FrameR) (fr : FrameR) (sd : Int) (t0 : Nat)
    (stP : GState ι σ) (hW : h.window_process_events stP = stP) :
    replayPreState h ⟨sd, t0, pre ++ [fr]⟩ pre.length stP =
      applyFrame h fr (preInput h stP) := by
  unfold replayPreState
  rw [hW]
  simp only [List.get?_concat_length]
  rfl

/-- A replay tick whose frame call leaves no scene change pending, with no
close requested, continues with the spoofed clock advanced. -/
theorem replayTick_none_close {ι σ ε : Type} (h : LoopHooks ι σ ε)
    (r : ReplayM) (tick : Nat) (st0 stF : GState ι σ)
    (hf : h.frameFn (replayPreState h r tick st0) = Except.ok stF)
    (hsc : stF.scene_change = none)
    (hcl : h.close_requested tick = false) :
    replayTick h r tick st0 = Except.ok (Sum.inl (advanceTime stF)) := by
  unfold replayTick
  rw [hf]
  simp only []
  rw [hsc]
  simp only []
  unfold runTickClose
  rw [hcl]
  simp

/-- The record-side and replay-side states fed to the frame function agree
on the tracked fields when the start states do. -/
theorem coreEq_pipe {ι σ ε : Type} (h : LoopHooks ι σ ε) (x y : Int)
    (ns : Option Int) (E : List Nat) (a b : GState ι σ)
    (hab : coreEq a b) :
    coreEq (mouseSet h x y (preInput h (seedUpd ns a)))
      (mouseSet h x y (seedUpd ns { preInput h b with stored_events := E })) := by
  obtain ⟨h1, h2, h3, h4, h5⟩ := hab
  refine ⟨?_, ?_, ?_, ?_, ?_⟩
  · simp only [mouseSet, preInput, seedUpd_scene]
    exact h1
  · simp only [mouseSet, preInput]
    exact seedUpd_seed ns _ _ h2
  · simp only [mouseSet, preInput, seedUpd_input]
    rw [h3]
  · simp only [mouseSet, preInput, seedUpd_room]
    exact h4
  · simp only [mouseSet, preInput, seedUpd_sim]
    exact h5

/-- C1 counterexample: record and replay resolve a queued game end
differently, so a captured replay does not reproduce the recording session.
With hooks whose frame queues a game end and counts ticks in `sim`, and
whose restart sets `sim` to 100: recording one `Advance` maps the game end
to a restart (game.rs 1502) and ends the session at `sim = 100`, while
replaying the captured one-frame replay fires the game-end events and halts
at `sim = 1` — different final mutable state from identical inputs. -/
theorem record_replay_cx :
    recordLoop cxRH [some (MessageM.Advance [] [] (0, 0) none)] 0
        ⟨none, 0, none, (), [], 30, 0⟩ ⟨0, 0, []⟩ false
      = Except.ok (some (⟨none, 0, none, (), [], 30, 100⟩,
          ⟨0, 0, [⟨[], none, none, 0, 0, [], 30⟩]⟩)) ∧
    replayRun cxRH ⟨0, 0, [⟨[], none, none, 0, 0, [], 30⟩]⟩ 1
        ⟨none, 0, none, (), [], 30, 0⟩
      = Except.ok (some ⟨some SceneChangeM.End, 0, some 0, (), [], 30, 1⟩) ∧
    (⟨none, 0, none, (), [], 30, 100⟩ : GState Unit Nat).sim
      ≠ (⟨some SceneChangeM.End, 0, some 0, (), [], 30, 1⟩ : GState Unit Nat).sim :=
  ⟨rfl, rfl, by decide⟩

/-- C1 (amended): one recorded tick and its replay agree on the tracked
state.  For hooks whose window-event processing is the identity and whose
frame function reads and writes only the tracked fields and leaves no scene
change pending: if a recording session processes an `Advance` carrying no
key or mouse deltas, then replaying the frame it captured — appended at any
position of a replay, from any start state agreeing on the tracked fields —
succeeds and continues with a state again agreeing on the tracked fields
(the spoofed clock and stored-events queue are excluded: record never
advances the clock, and replay feeds the captured events queue into the
frame rather than producing it). -/
theorem record_replay_tick_core {ι σ ε : Type} (h : LoopHooks ι σ ε)
    (rp : ReplayM) (ml : Int × Int) (ns : Option Int)
    (stR stR1 stP : GState ι σ) (rp1 : ReplayM)
    (pre : List FrameR) (sd : Int) (t0 : Nat)
    (hW : ∀ st : GState ι σ, h.window_process_events st = st)
    (hframe : RespectsCore h.frameFn)
    (hns : ∀ st st1 : GState ι σ, h.frameFn st = Except.ok st1 →
      st1.scene_change = none)
    (hclose : h.close_requested pre.length = false)
    (hcore : coreEq stR stP)
    (hadv : recordAdvance h rp [] [] ml ns stR = Except.ok (stR1, rp1)) :
    ∃ fr stP1,
      rp1 = { rp with frames := rp.frames ++ [fr] } ∧
      replayTick h ⟨sd, t0, pre ++ [fr]⟩ pre.length stP
        = Except.ok (Sum.inl stP1) ∧
      coreEq stR1 stP1 := by
  unfold recordAdvance at hadv
  simp only [recordPreState_nil] at hadv
  cases hfA : h.frameFn (mouseSet h ml.1 ml.2 (preInput h (seedUpd ns stR))) with
  | error e =>
    rw [hfA] at hadv
    simp only [] at hadv
    exact Except.noConfusion hadv
  | ok stF =>
    rw [hfA] at hadv
    simp only [] at hadv
    rw [hns _ _ hfA] at hadv
    simp only [] at hadv
    injection hadv with hadv
    injection hadv with hadv1 hadv2
    have hB := coreEq_pipe h ml.1 ml.2 ns stF.stored_events stR stP hcore
    have hm := hframe _ _ hB
    rw [hfA] at hm
    cases hfB : h.frameFn (mouseSet h ml.1 ml.2
        (seedUpd ns { preInput h stP with stored_events := stF.stored_events })) with
    | error e =>
      rw [hfB] at hm
      simp only [] at hm
    | ok stG =>
      rw [hfB] at hm
      simp only [] at hm
      refine ⟨⟨[], ns, none, ml.1, ml.2, stF.stored_events, stR.room_speed⟩,
        advanceTime stG, hadv2.symm, ?_, ?_⟩
      · apply replayTick_none_close
        · rw [replayPreState_concat _ _ _ _ _ _ (hW stP), applyFrame_simple]
          exact hfB
        · exact hns _ _ hfB
        · exact hclose
      · obtain ⟨g1, g2, g3, g4, g5⟩ := hm
        rw [← hadv1]
        refine ⟨?_, g2, g3, g4, g5⟩
        simp only [advanceTime]
        exact g1

theorem record_replay_tick_core_witness :
    ∃ fr stP1,
      (⟨1, 2, [⟨[], some 42, none, 6, 7, [7], 30⟩]⟩ : ReplayM)
        = { (⟨1, 2, []⟩ : ReplayM) with
            frames := (⟨1, 2, []⟩ : ReplayM).frames ++ [fr] } ∧
      replayTick wRH ⟨0, 0, ([] : List FrameR) ++ [fr]⟩
          (List.length ([] : List FrameR)) ⟨none, 3, some 5, (), [9], 30, 10⟩
        = Except.ok (Sum.inl stP1) ∧
      coreEq (⟨none, 42, none, (), [], 30, 11⟩ : GState Unit Nat) stP1 :=
  record_replay_tick_core wRH ⟨1, 2, []⟩ (6, 7) (some 42)
    ⟨none, 3, none, (), [], 30, 10⟩ ⟨none, 42, none, (), [], 30, 11⟩
    ⟨none, 3, some 5, (), [9], 30, 10⟩
    ⟨1, 2, [⟨[], some 42, none, 6, 7, [7], 30⟩]⟩ [] 0 0
    (fun _ => rfl)
    (fun a b hab => ⟨rfl, hab.2.1, hab.2.2.1, hab.2.2.2.1, by rw [hab.2.2.2.2]⟩)
    (fun st st1 hok => by cases hok; rfl)
    rfl ⟨rfl, rfl, rfl, rfl, rfl⟩ rfl
end GM8
